/-
Verification of the ghcp-ollama protocol-translation core.

This file embeds, in Lean 4, the adapter family of the ghcp-ollama gateway:
the Ollama, OpenAI, Anthropic and OpenAI-Responses adapters, together with
the SSE frame splitter used by their `parseStreamChunk` methods.  The
JavaScript source works on dynamic JSON values; the embedding models JSON
values by the inductive type `Json` below, JavaScript truthiness by
`Json.truthy`, property access by `Json.getF`, and a thrown exception by
`Except.error`.  Identifier minting (`Date.now()` + `Math.random()`) is
modelled by a deterministic counter, and `new Date().toISOString()` by the
symbolic constant `TimeStr.now`; both are injective stand-ins for values the
claims never compare across runs.

A JavaScript assignment `state.f = v` mutates the caller-visible state
object, whereas `state = {...}` rebinds the local variable only; the run
functions below thread a `(local, frozen)` pair so that the caller-visible
state after a call is the value at the first rebind, exactly as in JS.
-/

import Mathlib

set_option maxHeartbeats 1000000

/-- A JSON value, as produced by `JSON.parse`. -/
inductive Json where
  | null
  | bool (b : Bool)
  | num (n : Int)
  | str (s : String)
  | arr (xs : List Json)
  | obj (fields : List (String × Json))

/-- JavaScript truthiness of a JSON value (`NaN` cannot arise here). -/
def Json.truthy : Json → Bool
  | .null => false
  | .bool b => b
  | .num n => n != 0
  | .str s => s ≠ ""
  | .arr _ => true
  | .obj _ => true

/-- Property access `j.k` on a decoded JSON value: defined for objects,
`undefined` (`none`) otherwise.  (Access on `null` throws in JS; the adapters
below throw before doing such an access.) -/
def Json.getF : Json → String → Option Json
  | .obj fields, k => fields.lookup k
  | _, _ => none

/-- Element access `j[0]`, as used by `parsed.choices[0]`. -/
def Json.idx0 : Json → Option Json
  | .arr (x :: _) => some x
  | .str s => match s.data with
    | c :: _ => some (.str (String.mk [c]))
    | [] => none
  | .obj fields => fields.lookup "0"
  | _ => none

/-- Whether a JSON value is `null`. -/
def Json.isNull : Json → Bool
  | .null => true
  | _ => false

/-- Truthiness of a possibly-undefined value. -/
def optTruthy (o : Option Json) : Bool :=
  match o with
  | some j => j.truthy
  | none => false

/-- `v || 0` after reading a numeric usage field: the number when the field
is a number, `0` otherwise. -/
def getNumOr0 (o : Option Json) : Int :=
  match o with
  | some (.num n) => n
  | _ => 0

/-- JavaScript string coercion, as performed by `+=` on non-string values. -/
def jsStr : Json → String
  | .null => "null"
  | .bool true => "true"
  | .bool false => "false"
  | .num n => toString n
  | .str s => s
  | .arr _ => ""
  | .obj _ => "[object Object]"

/-- The character `{`. -/
def lbraceC : Char := Char.ofNat 123

/-- The character `}`. -/
def rbraceC : Char := Char.ofNat 125

def isWsC (c : Char) : Bool :=
  c = ' ' || c = '\n' || c = '\t' || c = '\r'

def skipWs (cs : List Char) : List Char :=
  cs.dropWhile isWsC

def isDigitC (c : Char) : Bool :=
  '0' ≤ c && c ≤ '9'

def digitVal (c : Char) : Nat := c.toNat - '0'.toNat

def hexVal (c : Char) : Option Nat :=
  if isDigitC c then some (digitVal c)
  else if c ≥ 'a' ∧ c ≤ 'f' then some (10 + (c.toNat - 'a'.toNat))
  else if c ≥ 'A' ∧ c ≤ 'F' then some (10 + (c.toNat - 'A'.toNat))
  else none

/-- Body of a JSON string literal (after the opening quote), with the
escapes `JSON.parse` accepts. -/
def parseStrBody : List Char → Option (List Char × List Char)
  | [] => none
  | c :: cs =>
    if c = '"' then some ([], cs)
    else if c = '\\' then
      match cs with
      | [] => none
      | e :: cs' =>
        if e = 'u' then
          match cs' with
          | h1 :: h2 :: h3 :: h4 :: cs'' =>
            match hexVal h1, hexVal h2, hexVal h3, hexVal h4 with
            | some a, some b, some c3, some d =>
              match parseStrBody cs'' with
              | some (tl, rest) =>
                some (Char.ofNat (((a * 16 + b) * 16 + c3) * 16 + d) :: tl, rest)
              | none => none
            | _, _, _, _ => none
          | _ => none
        else
          let dec : Option Char :=
            if e = '"' then some '"'
            else if e = '\\' then some '\\'
            else if e = '/' then some '/'
            else if e = 'n' then some '\n'
            else if e = 't' then some '\t'
            else if e = 'r' then some '\r'
            else if e = 'b' then some (Char.ofNat 8)
            else if e = 'f' then some (Char.ofNat 12)
            else none
          match dec with
          | some d =>
            match parseStrBody cs' with
            | some (tl, rest) => some (d :: tl, rest)
            | none => none
          | none => none
    else
      match parseStrBody cs with
      | some (tl, rest) => some (c :: tl, rest)
      | none => none

/-- A JSON integer literal (fractions and exponents are not needed by any
frame the repository produces or consumes in its fixtures). -/
def parseIntLit (cs : List Char) : Option (Int × List Char) :=
  let (neg, cs') :=
    match cs with
    | c :: rest => if c = '-' then (true, rest) else (false, cs)
    | [] => (false, cs)
  let digits := cs'.takeWhile isDigitC
  let rest := cs'.dropWhile isDigitC
  if digits.isEmpty then none
  else
    let n : Nat := digits.foldl (fun acc c => acc * 10 + digitVal c) 0
    some (if neg then -(n : Int) else (n : Int), rest)

def expectLit : List Char → List Char → Option (List Char)
  | [], cs => some cs
  | e :: es, c :: cs => if c = e then expectLit es cs else none
  | _ :: _, [] => none

mutual

/-- Recursive-descent JSON value parser, fuelled by the input length. -/
def parseV : Nat → List Char → Option (Json × List Char)
  | 0, _ => none
  | fuel + 1, cs =>
    match skipWs cs with
    | [] => none
    | c :: rest =>
      if c = 'n' then
        match expectLit ['u', 'l', 'l'] rest with
        | some rest' => some (.null, rest')
        | none => none
      else if c = 't' then
        match expectLit ['r', 'u', 'e'] rest with
        | some rest' => some (.bool true, rest')
        | none => none
      else if c = 'f' then
        match expectLit ['a', 'l', 's', 'e'] rest with
        | some rest' => some (.bool false, rest')
        | none => none
      else if c = '"' then
        match parseStrBody rest with
        | some (body, rest') => some (.str (String.mk body), rest')
        | none => none
      else if c = '[' then
        match skipWs rest with
        | c' :: rest' =>
          if c' = ']' then some (.arr [], rest')
          else
            match parseArrItems fuel (c' :: rest') with
            | some (xs, rest'') => some (.arr xs, rest'')
            | none => none
        | [] => none
      else if c = lbraceC then
        match skipWs rest with
        | c' :: rest' =>
          if c' = rbraceC then some (.obj [], rest')
          else
            match parseObjItems fuel (c' :: rest') with
            | some (fs, rest'') => some (.obj fs, rest'')
            | none => none
        | [] => none
      else if c = '-' || isDigitC c then
        match parseIntLit (c :: rest) with
        | some (n, rest') => some (.num n, rest')
        | none => none
      else none

/-- Comma-separated array items, up to and including the closing `]`. -/
def parseArrItems : Nat → List Char → Option (List Json × List Char)
  | 0, _ => none
  | fuel + 1, cs =>
    match parseV fuel cs with
    | some (v, rest) =>
      match skipWs rest with
      | c :: rest' =>
        if c = ']' then some ([v], rest')
        else if c = ',' then
          match parseArrItems fuel rest' with
          | some (xs, rest'') => some (v :: xs, rest'')
          | none => none
        else none
      | [] => none
    | none => none

/-- Comma-separated object fields, up to and including the closing brace. -/
def parseObjItems : Nat → List Char → Option (List (String × Json) × List Char)
  | 0, _ => none
  | fuel + 1, cs =>
    match skipWs cs with
    | c :: rest =>
      if c = '"' then
        match parseStrBody rest with
        | some (key, rest') =>
          match skipWs rest' with
          | c' :: rest'' =>
            if c' = ':' then
              match parseV fuel rest'' with
              | some (v, rest3) =>
                match skipWs rest3 with
                | c'' :: rest4 =>
                  if c'' = rbraceC then some ([(String.mk key, v)], rest4)
                  else if c'' = ',' then
                    match parseObjItems fuel rest4 with
                    | some (fs, rest5) => some ((String.mk key, v) :: fs, rest5)
                    | none => none
                  else none
                | [] => none
              | none => none
            else none
          | [] => none
        | none => none
      else none
    | [] => none

end

/-- `JSON.parse` on a character list: a single JSON value followed only by
whitespace. -/
def jsonParseL (cs : List Char) : Option Json :=
  match parseV (cs.length + 1) cs with
  | some (v, rest) => if (skipWs rest).isEmpty then some v else none
  | none => none

/-- `JSON.parse` on a string. -/
def jsonParse (s : String) : Option Json :=
  jsonParseL s.data

example : jsonParse "\x7b\"a\":1,\"b\":[true,null,\"x\"]\x7d" =
    some (.obj [("a", .num 1), ("b", .arr [.bool true, .null, .str "x"])]) := rfl

example : jsonParse "\x7b\x7d" = some (.obj []) := rfl

/-! ## SSE frame splitter

`parseStreamChunk` in every adapter starts with `buffer.split("\n\n")`,
pops the last (incomplete) part as the new remainder, splits each complete
part into lines, and handles only lines starting with `"data: "`. -/

/-- `buffer.split("\n\n")`: leftmost, non-overlapping split. -/
def splitNlNl : List Char → List (List Char)
  | [] => [[]]
  | '\n' :: '\n' :: rest => [] :: splitNlNl rest
  | c :: rest =>
    match splitNlNl rest with
    | h :: t => (c :: h) :: t
    | [] => [[c]]

/-- `split` followed by `pop`: the complete frames and the retained tail. -/
def sseParts (buffer : List Char) : List (List Char) × List Char :=
  let ps := splitNlNl buffer
  (ps.dropLast, ps.getLastD [])

/-- `respMessage.split("\n")`. -/
def splitNl : List Char → List (List Char)
  | [] => [[]]
  | '\n' :: rest => [] :: splitNl rest
  | c :: rest =>
    match splitNl rest with
    | h :: t => (c :: h) :: t
    | [] => [[c]]

/-- `!respMessage || respMessage.trim() === ""`. -/
def isBlankMsg (cs : List Char) : Bool := cs.all isWsC

/-- `line.startsWith("data: ")`, returning `line.slice(6)`. -/
def dataPayload (line : List Char) : Option (List Char) :=
  if line.take 6 = "data: ".data then some (line.drop 6) else none

/-- The `[DONE]` sentinel payload. -/
def doneMark : List Char := "[DONE]".data

example : splitNlNl "a\n\nb\n\n".data = ["a".data, "b".data, []] := rfl

example : sseParts "a\n\nbc".data = (["a".data], "bc".data) := rfl

/-! ## Shared stream-side modelling types -/

/-- A thrown JavaScript exception. -/
inductive JsErr where
  | typeError
  | syntaxError

/-- `parsed.created ? new Date(parsed.created * 1000).toISOString() : new
Date().toISOString()`: the resulting string, symbolically.  `ofCreated` is
injective in the `created` value; `now` stands for the wall-clock string. -/
inductive TimeStr where
  | ofCreated (c : Json)
  | now

def createTimeOf (j : Json) : TimeStr :=
  if optTruthy (j.getF "created") then .ofCreated ((j.getF "created").getD .null)
  else .now

/-- A tool-call `arguments`/`input` accumulator value: a string while
accumulating, a decoded JSON value after `JSON.parse`. -/
inductive ArgVal where
  | str (s : String)
  | json (j : Json)

def ArgVal.truthy : ArgVal → Bool
  | .str s => s ≠ ""
  | .json j => j.truthy

/-- JS string coercion of an accumulator value (target of `+=`). -/
def ArgVal.coerce : ArgVal → String
  | .str s => s
  | .json j => jsStr j

/-- Strict comparison `v === "<k>"` of a possibly-undefined JSON value with
a string literal. -/
def jsEqStr (o : Option Json) (k : String) : Bool :=
  match o with
  | some (.str s) => s = k
  | _ => false

/-- One item of the upstream data-line stream: a decoded JSON frame or the
`[DONE]` sentinel. -/
inductive SSEItem where
  | done
  | frame (j : Json)

/-! ## Ollama adapter — streaming

Embeds `OllamaAdapter.parseStreamChunk` (src/utils/adapters/ollama_adapter.js).
The per-request state object is `OllamaSt`; emitted NDJSON frames are
`OllamaFrame`.  Tool accumulators are keyed by the function name coerced to
a string, as JS object keys are. -/

/-- A tool-call accumulator `{name, arguments}`. -/
structure OllamaFunc where
  name : Json
  arguments : ArgVal

/-- An entry `{function: {...func}}` of an emitted `tool_calls` array. -/
structure OllamaToolCall where
  function : OllamaFunc

/-- The `message` field of an emitted Ollama frame. -/
structure OllamaMsg where
  role : String
  content : Json
  tool_calls : Option (List OllamaToolCall) := none

/-- The per-request `incompleteResult` state object of the Ollama adapter.
`none` models an absent key; `currentToolFunc = some none` models the key
set to `null`, `some (some k)` a reference to the accumulator keyed `k`. -/
structure OllamaSt where
  done_reason : Option String := none
  model : Option Json := none
  created_at : Option TimeStr := none
  prompt_eval_count : Option Int := none
  eval_count : Option Int := none
  functions : Option (List (String × OllamaFunc)) := none
  currentToolFunc : Option (Option String) := none

/-- An emitted Ollama NDJSON frame.  The terminal frame is built by
spreading the state object, so it carries the state's bookkeeping keys
(`functions`, `currentToolFunc`) when those survive the spread. -/
structure OllamaFrame where
  done : Bool
  message : OllamaMsg
  done_reason : Option String := none
  model : Option Json := none
  created_at : Option TimeStr := none
  prompt_eval_count : Option Int := none
  eval_count : Option Int := none
  functions : Option (List (String × OllamaFunc)) := none
  currentToolFunc : Option (Option String) := none

/-- `incompleteResult.model || ""`. -/
def jsOrEmptyStr (o : Option Json) : Json :=
  match o with
  | some v => if v.truthy then v else .str ""
  | none => .str ""

/-- Replace-or-append into a JS object used as a map (overwriting a key
keeps its insertion position, a new key is appended). -/
def assocSet (l : List (String × OllamaFunc)) (k : String) (v : OllamaFunc) :
    List (String × OllamaFunc) :=
  if l.any (fun p => p.1 = k) then
    l.map (fun p => if p.1 = k then (k, v) else p)
  else l ++ [(k, v)]

/-- `incompleteResult.currentToolFunc.arguments += toolFunc.arguments`
resolved through the key reference. -/
def assocAppendArgs (l : List (String × OllamaFunc)) (k : String) (x : Json) :
    List (String × OllamaFunc) :=
  l.map (fun p =>
    if p.1 = k then (p.1, { p.2 with arguments := .str (p.2.arguments.coerce ++ jsStr x) })
    else p)

/-- The `[DONE]` branch of the Ollama adapter: flush tool accumulators as a
`done:false` frame, then emit the terminal frame spread from the state, then
rebind the local state to `{}`.  Returns (events, new local state, value of
the shared state object at the rebind). -/
def ollamaDoneStep (s : OllamaSt) : List OllamaFrame × OllamaSt × Option OllamaSt :=
  let (evs₁, s₁) : List OllamaFrame × OllamaSt :=
    match s.functions with
    | some l =>
      if !l.isEmpty then
        ([({ done := false,
             message := { role := "assistant", content := .str "",
                          tool_calls := some (l.map (fun p => OllamaToolCall.mk p.2)) },
             model := some (jsOrEmptyStr s.model),
             created_at := some (s.created_at.getD .now) } : OllamaFrame)],
         { s with currentToolFunc := some none, functions := none })
      else ([], s)
    | none => ([], s)
  let terminal : OllamaFrame :=
    { done := true,
      message := { role := "assistant", content := .str "" },
      done_reason := s₁.done_reason, model := s₁.model,
      created_at := s₁.created_at,
      prompt_eval_count := s₁.prompt_eval_count, eval_count := s₁.eval_count,
      functions := s₁.functions, currentToolFunc := s₁.currentToolFunc }
  (evs₁ ++ [terminal], {}, some s₁)

/-- Decode every truthy accumulator's `arguments` with `JSON.parse`
(`finish_reason === "tool_calls"` branch); a parse failure throws. -/
def ollamaDecodeOne (p : String × OllamaFunc) : Except JsErr (String × OllamaFunc) :=
  if p.2.arguments.truthy then
    match p.2.arguments with
    | .str str =>
      match jsonParse str with
      | some v => .ok (p.1, { p.2 with arguments := .json v })
      | none => .error .syntaxError
    | .json _ => .error .syntaxError
  else .ok p

def ollamaDecodeFuncs : List (String × OllamaFunc) → Except JsErr (List (String × OllamaFunc))
  | [] => .ok []
  | p :: ps =>
    match ollamaDecodeOne p with
    | .error e => .error e
    | .ok p' =>
      match ollamaDecodeFuncs ps with
      | .error e => .error e
      | .ok ps' => .ok (p' :: ps')

/-- The `choice.finish_reason` branch.  When usage is present the source
rebinds `incompleteResult` to a fresh spread object, detaching the shared
state: the second component reports that rebind. -/
def ollamaFinish (j choice : Json) (createTime : TimeStr) (s : OllamaSt) :
    Except JsErr (OllamaSt × Option OllamaSt) :=
  if optTruthy (choice.getF "finish_reason") then do
    let s₁ ←
      if jsEqStr (choice.getF "finish_reason") "tool_calls" && s.functions.isSome then
        match s.functions with
        | some l => do
          let l' ← ollamaDecodeFuncs l
          pure { s with functions := some l' }
        | none => pure s
      else pure s
    if optTruthy (j.getF "usage") then
      let usage := (j.getF "usage").getD .null
      .ok ({ s₁ with
              done_reason := some "stop",
              model := j.getF "model",
              created_at := some createTime,
              prompt_eval_count := some (getNumOr0 (usage.getF "prompt_tokens")),
              eval_count := some (getNumOr0 (usage.getF "completion_tokens")) },
            some s₁)
    else .ok (s₁, none)
  else .ok (s, none)

/-- One `toolCallDelta` of `choice.delta.tool_calls.forEach`. -/
def ollamaToolDelta (t : Json) (s : OllamaSt) : Except JsErr OllamaSt := do
  if t.isNull then throw .typeError
  match t.getF "function" with
  | none => throw .typeError
  | some .null => throw .typeError
  | some v =>
    let s₁ :=
      if optTruthy (v.getF "name") then
        let nameJ := (v.getF "name").getD .null
        let key := jsStr nameJ
        { s with
          functions := some (assocSet (s.functions.getD []) key
            { name := nameJ, arguments := .str "" }),
          currentToolFunc := some (some key) }
      else s
    if optTruthy (v.getF "arguments") then
      match s₁.currentToolFunc with
      | some (some key) =>
        .ok { s₁ with functions := some (assocAppendArgs (s₁.functions.getD []) key
                ((v.getF "arguments").getD .null)) }
      | _ => throw .typeError
    else .ok s₁

def ollamaToolDeltas : List Json → OllamaSt → Except JsErr OllamaSt
  | [], s => .ok s
  | t :: ts, s => do
    let s' ← ollamaToolDelta t s
    ollamaToolDeltas ts s'

/-- The `choice.delta` branch: emit a content frame, accumulate tool-call
deltas in the state. -/
def ollamaDelta (j choice : Json) (createTime : TimeStr) (s : OllamaSt) :
    Except JsErr (List OllamaFrame × OllamaSt) := do
  match choice.getF "delta" with
  | none => .ok ([], s)
  | some delta =>
    if delta.truthy then do
      let evs :=
        if optTruthy (delta.getF "content") then
          [{ done := false,
             message := { role := "assistant",
                          content := (delta.getF "content").getD (.str "") },
             model := j.getF "model",
             created_at := some createTime : OllamaFrame }]
        else []
      let s' ←
        match delta.getF "tool_calls" with
        | some (.arr ts) =>
          if ts.length > 0 then do
            let s₁ :=
              if s.functions.isNone then
                { s with functions := some [], currentToolFunc := some none }
              else s
            let s₂ := if optTruthy s₁.model then s₁ else { s₁ with model := j.getF "model" }
            let s₃ := if s₂.created_at.isSome then s₂
                      else { s₂ with created_at := some createTime }
            ollamaToolDeltas ts s₃
          else .ok s
        | some (.str str) =>
          -- a truthy string has `.length > 0` but no `forEach`
          if str ≠ "" then throw .typeError else .ok s
        | _ => .ok s
      .ok (evs, s')
    else .ok ([], s)

/-- Processing of one decoded upstream JSON frame by the Ollama adapter
(`finish_reason` branch first, then `delta` branch, as in the source). -/
def ollamaFrameStep (j : Json) (s : OllamaSt) :
    Except JsErr (List OllamaFrame × OllamaSt × Option OllamaSt) := do
  if j.isNull then throw .typeError
  let t := createTimeOf j
  let choice? : Option Json :=
    match j.getF "choices" with
    | some cs =>
      if cs.truthy then
        match cs.idx0 with
        | some c => if c.truthy then some c else none
        | none => none
      else none
    | none => none
  match choice? with
  | none => .ok ([], s, none)
  | some choice => do
    let (s₁, reb) ← ollamaFinish j choice t s
    let (evs, s₂) ← ollamaDelta j choice t s₁
    .ok (evs, s₂, reb)

def ollamaItemStep : SSEItem → OllamaSt → Except JsErr (List OllamaFrame × OllamaSt × Option OllamaSt)
  | .done, s => .ok (ollamaDoneStep s)
  | .frame j, s => ollamaFrameStep j s

/-- Run a list of stream items, threading the local state and remembering
the shared object's value at the first rebind. -/
def ollamaRunItems : List SSEItem → OllamaSt → Option OllamaSt →
    Except JsErr (List OllamaFrame × OllamaSt × Option OllamaSt)
  | [], s, fz => .ok ([], s, fz)
  | it :: its, s, fz =>
    match ollamaItemStep it s with
    | .error e => .error e
    | .ok (evs, s', r) =>
      match ollamaRunItems its s' (fz <|> r) with
      | .error e => .error e
      | .ok (evs', s'', fz') => .ok (evs ++ evs', s'', fz')

/-- Process the `data: ` lines of one complete SSE frame; `[DONE]` breaks
out of the line loop. -/
def ollamaLinesRun : List (List Char) → OllamaSt → Option OllamaSt →
    Except JsErr (List OllamaFrame × OllamaSt × Option OllamaSt)
  | [], s, fz => .ok ([], s, fz)
  | line :: ls, s, fz =>
    match dataPayload line with
    | none => ollamaLinesRun ls s fz
    | some d =>
      if d = doneMark then
        let (evs, s', r) := ollamaDoneStep s
        .ok (evs, s', fz <|> r)
      else do
        let (evs, s', r) ←
          match jsonParseL d with
          | some j => ollamaFrameStep j s
          | none => .error .syntaxError
        let (evs', s'', fz') ← ollamaLinesRun ls s' (fz <|> r)
        .ok (evs ++ evs', s'', fz')

def ollamaMsgsRun : List (List Char) → OllamaSt → Option OllamaSt →
    Except JsErr (List OllamaFrame × OllamaSt × Option OllamaSt)
  | [], s, fz => .ok ([], s, fz)
  | m :: ms, s, fz =>
    if isBlankMsg m then ollamaMsgsRun ms s fz
    else do
      let (evs, s', fz') ← ollamaLinesRun (splitNl m) s fz
      let (evs', s'', fz'') ← ollamaMsgsRun ms s' fz'
      .ok (evs ++ evs', s'', fz'')

namespace OllamaAdapter

/-- `OllamaAdapter.parseStreamChunk(buffer, incompleteResult)`: returns the
emitted frames, the retained remainder buffer, and the caller-visible state
object after the call (the value at the first rebind when one happened). -/
def parseStreamChunk (buffer : List Char) (state : OllamaSt) :
    Except JsErr (List OllamaFrame × List Char × OllamaSt) :=
  let (msgs, remain) := sseParts buffer
  match ollamaMsgsRun msgs state none with
  | .ok (evs, s, fz) => .ok (evs, remain, fz.getD s)
  | .error e => .error e

end OllamaAdapter

/-! ## Run lemmas for the Ollama adapter -/

@[simp] theorem exbind_ok {α β : Type} (x : α) (f : α → Except JsErr β) :
    (Bind.bind (Except.ok x) f : Except JsErr β) = f x := rfl

@[simp] theorem exbind_err {α β : Type} (e : JsErr) (f : α → Except JsErr β) :
    (Bind.bind (Except.error e) f : Except JsErr β) = .error e := rfl

theorem ollamaRunItems_append (xs ys : List SSEItem) (s : OllamaSt) (fz : Option OllamaSt) :
    ollamaRunItems (xs ++ ys) s fz =
      match ollamaRunItems xs s fz with
      | .ok (e1, s1, f1) =>
        match ollamaRunItems ys s1 f1 with
        | .ok (e2, s2, f2) => .ok (e1 ++ e2, s2, f2)
        | .error e => .error e
      | .error e => .error e := by
  induction xs generalizing s fz with
  | nil => cases h : ollamaRunItems ys s fz <;> simp [ollamaRunItems, h]
  | cons it its ih =>
    simp only [List.cons_append, ollamaRunItems]
    cases ollamaItemStep it s with
    | error e => rfl
    | ok r =>
      obtain ⟨evs, s', reb⟩ := r
      dsimp only
      rw [show List.append its ys = its ++ ys from rfl, ih]
      cases ollamaRunItems its s' (fz <|> reb) with
      | error e => rfl
      | ok r2 =>
        obtain ⟨e1, s1, f1⟩ := r2
        dsimp only
        cases ollamaRunItems ys s1 f1 with
        | error e => rfl
        | ok r3 =>
          obtain ⟨e2, s2, f2⟩ := r3
          dsimp only
          rw [List.append_assoc]

/-! ## Claim C1 — re-chunk invariance of streaming parsing -/

/-- An upstream SSE byte stream: a finish frame carrying `usage`, then the
`[DONE]` frame. -/
def c1FinishPart : String :=
  "data: \x7b\"model\":\"m\",\"created\":1,\"choices\":[\x7b\"delta\":\x7b\x7d,\"finish_reason\":\"stop\"\x7d],\"usage\":\x7b\"prompt_tokens\":5,\"completion_tokens\":2\x7d\x7d\n\n"

def c1DonePart : String := "data: [DONE]\n\n"

/-- Driving the Ollama adapter with the whole stream in one call. -/
def c1SingleRun : Option (List OllamaFrame) :=
  match OllamaAdapter.parseStreamChunk (c1FinishPart ++ c1DonePart).data {} with
  | .ok (evs, _, _) => some evs
  | .error _ => none

/-- Driving the Ollama adapter with the same bytes split at the boundary
between the finish frame and the `[DONE]` frame, prepending the returned
remainder and passing the caller-visible state across the calls. -/
def c1SplitRun : Option (List OllamaFrame) :=
  match OllamaAdapter.parseStreamChunk c1FinishPart.data {} with
  | .ok (evs1, rem1, st1) =>
    match OllamaAdapter.parseStreamChunk (rem1 ++ c1DonePart.data) st1 with
    | .ok (evs2, _, _) => some (evs1 ++ evs2)
    | .error _ => none
  | .error _ => none

set_option maxRecDepth 100000 in
/-- C1: re-chunk invariance of streaming parsing fails on the Ollama
adapter.  For the stream `c1FinishPart ++ c1DonePart`, splitting at the byte
boundary between the finish/usage frame and the `[DONE]` frame yields a
different concatenated event sequence than a single call: the single call's
terminal frame carries `done_reason:"stop"`, `prompt_eval_count:5`,
`eval_count:2`, while the split run's terminal frame carries none of them,
because the source rebinds its local `incompleteResult` variable on the
finish frame instead of mutating the shared state object. -/
theorem ollama_rechunk_divergence : c1SplitRun ≠ c1SingleRun := by
  intro h
  have h' := congrArg (fun o => (o.map (fun l => l.map OllamaFrame.done_reason))) h
  revert h'
  decide

/-! ## Claim C4 — Ollama streaming tool-argument reconstruction -/

/-- Upstream delta frame naming the tool call. -/
def toolNameFrame (name : String) : Json :=
  .obj [("model", .str "m"), ("created", .num 1),
        ("choices", .arr [.obj [("delta",
          .obj [("tool_calls", .arr [.obj [("index", .num 0), ("id", .str "call_1"),
            ("function", .obj [("name", .str name), ("arguments", .str "")])]])])]])]

/-- Upstream delta frame carrying one argument fragment. -/
def toolArgFrame (frag : String) : Json :=
  .obj [("model", .str "m"), ("created", .num 1),
        ("choices", .arr [.obj [("delta",
          .obj [("tool_calls", .arr [.obj [("index", .num 0),
            ("function", .obj [("arguments", .str frag)])]])])]])]

/-- Upstream frame with `finish_reason:"tool_calls"` and usage. -/
def toolFinishFrame (pe ce : Int) : Json :=
  .obj [("model", .str "m"), ("created", .num 1),
        ("choices", .arr [.obj [("delta", .obj []), ("finish_reason", .str "tool_calls")]]),
        ("usage", .obj [("prompt_tokens", .num pe), ("completion_tokens", .num ce)])]

/-- The Ollama state while accumulating arguments `a` for tool `name`. -/
def c4StAcc (name a : String) : OllamaSt :=
  { model := some (.str "m"), created_at := some (.ofCreated (.num 1)),
    functions := some [(name, ⟨.str name, .str a⟩)],
    currentToolFunc := some (some name) }

/-- The shared state object at the finish-frame rebind: arguments decoded,
usage not yet recorded. -/
def c4StDec (name : String) (J : Json) : OllamaSt :=
  { model := some (.str "m"), created_at := some (.ofCreated (.num 1)),
    functions := some [(name, ⟨.str name, .json J⟩)],
    currentToolFunc := some (some name) }

/-- The local Ollama state after the finish frame with usage. -/
def c4StFin (name : String) (J : Json) (pe ce : Int) : OllamaSt :=
  { done_reason := some "stop", model := some (.str "m"),
    created_at := some (.ofCreated (.num 1)),
    prompt_eval_count := some pe, eval_count := some ce,
    functions := some [(name, ⟨.str name, .json J⟩)],
    currentToolFunc := some (some name) }

theorem c4_name_step (name : String) (hname : name ≠ "") :
    ollamaFrameStep (toolNameFrame name) {} = .ok ([], c4StAcc name "", none) := by
  simp [ollamaFrameStep, toolNameFrame, Json.getF, List.lookup, Json.isNull, Json.idx0,
    Json.truthy, createTimeOf, optTruthy, ollamaFinish, ollamaDelta, ollamaToolDeltas,
    ollamaToolDelta, jsEqStr, jsStr, assocSet, c4StAcc, hname]

theorem c4_arg_step (name frag acc : String) :
    ollamaFrameStep (toolArgFrame frag) (c4StAcc name acc) =
      .ok ([], c4StAcc name (acc ++ frag), none) := by
  by_cases hfrag : frag = ""
  · subst hfrag
    simp [ollamaFrameStep, toolArgFrame, Json.getF, List.lookup, Json.isNull, Json.idx0,
      Json.truthy, createTimeOf, optTruthy, ollamaFinish, ollamaDelta, ollamaToolDeltas,
      ollamaToolDelta, jsEqStr, c4StAcc]
  · simp [ollamaFrameStep, toolArgFrame, Json.getF, List.lookup, Json.isNull, Json.idx0,
      Json.truthy, createTimeOf, optTruthy, ollamaFinish, ollamaDelta, ollamaToolDeltas,
      ollamaToolDelta, jsEqStr, assocAppendArgs, ArgVal.coerce, jsStr, c4StAcc, hfrag]

theorem strFoldl_init (init : String) (fs : List String) :
    fs.foldl (fun r s => r ++ s) init = init ++ fs.foldl (fun r s => r ++ s) "" := by
  induction fs generalizing init with
  | nil => simp
  | cons a l ih =>
    simp only [List.foldl_cons]
    rw [ih (init ++ a), ih ("" ++ a), String.empty_append, String.append_assoc]

theorem strJoin_cons (f : String) (fs : List String) :
    String.join (f :: fs) = f ++ String.join fs := by
  simp only [String.join, List.foldl_cons, String.empty_append]
  rw [strFoldl_init]

theorem c4_args_run (name : String) (frags : List String) (acc : String) :
    ollamaRunItems (frags.map (fun f => .frame (toolArgFrame f))) (c4StAcc name acc) none =
      .ok ([], c4StAcc name (acc ++ String.join frags), none) := by
  induction frags generalizing acc with
  | nil => simp [ollamaRunItems, String.join]
  | cons f fs ih =>
    simp only [List.map_cons, ollamaRunItems, ollamaItemStep, c4_arg_step, Option.none_orElse]
    rw [ih, strJoin_cons]
    simp [String.append_assoc]

theorem c4_finish_step (name args : String) (J : Json) (pe ce : Int)
    (hargs : args ≠ "") (hJ : jsonParse args = some J) :
    ollamaFrameStep (toolFinishFrame pe ce) (c4StAcc name args) =
      .ok ([], c4StFin name J pe ce, some (c4StDec name J)) := by
  simp [ollamaFrameStep, toolFinishFrame, Json.getF, List.lookup, Json.isNull, Json.idx0,
    Json.truthy, createTimeOf, optTruthy, ollamaFinish, ollamaDelta, jsEqStr,
    ollamaDecodeFuncs, ollamaDecodeOne, ArgVal.truthy, hargs, hJ, c4StAcc, c4StDec, c4StFin,
    getNumOr0]

theorem c4_done_step (name : String) (J : Json) (pe ce : Int) :
    ollamaDoneStep (c4StFin name J pe ce) =
      ([{ done := false,
          message := { role := "assistant", content := .str "",
                       tool_calls := some [⟨⟨.str name, .json J⟩⟩] },
          model := some (.str "m"), created_at := some (.ofCreated (.num 1)) },
        { done := true,
          message := { role := "assistant", content := .str "" },
          done_reason := some "stop", model := some (.str "m"),
          created_at := some (.ofCreated (.num 1)),
          prompt_eval_count := some pe, eval_count := some ce,
          functions := none, currentToolFunc := some none }],
       {},
       some { c4StFin name J pe ce with currentToolFunc := some none, functions := none }) :=
  rfl

/-- C4: Ollama streaming tool-argument reconstruction.  For any tool name,
any list of argument fragments whose concatenation `JSON.parse`s to `J`, and
any usage numbers, the adapter emits at `[DONE]` exactly one `done:false`
frame whose `tool_calls[0].function.arguments` is the decoded value `J`
(`ArgVal.json J`, never the concatenated string), followed by one terminal
frame merged with the recorded usage and `done:true`. -/
theorem ollama_stream_tool_args_decoded
    (name : String) (frags : List String) (J : Json) (pe ce : Int)
    (hname : name ≠ "") (hJ : jsonParse (String.join frags) = some J) :
    ollamaRunItems
      (.frame (toolNameFrame name) :: (frags.map (fun f => .frame (toolArgFrame f)) ++
        [.frame (toolFinishFrame pe ce), .done])) {} none =
    .ok
      ([{ done := false,
          message := { role := "assistant", content := .str "",
                       tool_calls := some [⟨⟨.str name, .json J⟩⟩] },
          model := some (.str "m"), created_at := some (.ofCreated (.num 1)) },
        { done := true,
          message := { role := "assistant", content := .str "" },
          done_reason := some "stop", model := some (.str "m"),
          created_at := some (.ofCreated (.num 1)),
          prompt_eval_count := some pe, eval_count := some ce,
          functions := none, currentToolFunc := some none }],
       {}, some (c4StDec name J)) := by
  have hargs : String.join frags ≠ "" := by
    intro h
    have h0 : jsonParse "" = (none : Option Json) := rfl
    rw [h, h0] at hJ
    exact Option.noConfusion hJ
  have h1 : c4StAcc name "" = c4StAcc name "" := rfl
  simp only [ollamaRunItems, ollamaItemStep, c4_name_step name hname, Option.none_orElse]
  rw [ollamaRunItems_append, c4_args_run, String.empty_append]
  simp only [ollamaRunItems, ollamaItemStep, Option.none_orElse,
    c4_finish_step name (String.join frags) J pe ce hargs hJ, c4_done_step]
  simp

/-- Witness for C4 at the concrete input: tool `get_weather`, fragments
`["{}"]`, usage 100/20. -/
theorem ollama_stream_tool_args_decoded_witness :
    (("get_weather" : String) ≠ "" ∧
      jsonParse (String.join ["\x7b\x7d"]) = some (.obj [])) ∧
    ollamaRunItems
      (.frame (toolNameFrame "get_weather") ::
        (["\x7b\x7d"].map (fun f => .frame (toolArgFrame f)) ++
          [.frame (toolFinishFrame 100 20), .done])) {} none =
    .ok
      ([{ done := false,
          message := { role := "assistant", content := .str "",
                       tool_calls := some [⟨⟨.str "get_weather", .json (.obj [])⟩⟩] },
          model := some (.str "m"), created_at := some (.ofCreated (.num 1)) },
        { done := true,
          message := { role := "assistant", content := .str "" },
          done_reason := some "stop", model := some (.str "m"),
          created_at := some (.ofCreated (.num 1)),
          prompt_eval_count := some 100, eval_count := some 20,
          functions := none, currentToolFunc := some none }],
       {}, some (c4StDec "get_weather" (.obj []))) :=
  ⟨⟨by decide, rfl⟩,
    ollama_stream_tool_args_decoded "get_weather" ["\x7b\x7d"] (.obj []) 100 20 (by decide) rfl⟩

/-! ## Anthropic adapter — streaming

Embeds `AnthropicAdapter.parseStreamChunk`
(src/utils/adapters/anthropic_adapter.js).  Minted identifiers
(`msg_…`/`call_…` built from `Date.now()` and `Math.random()`) are modelled
by a counter threaded through the run; upstream-provided tool-call ids are
kept as `ToolId.given`. -/

/-- A tool-use block id: upstream-provided or freshly minted. -/
inductive ToolId where
  | given (j : Json)
  | minted (n : Nat)

/-- A tool accumulator `{id, name, input}`. -/
structure AnthFunc where
  id : ToolId
  name : Json
  input : ArgVal

/-- The per-request `incompleteResult` state of the Anthropic adapter. -/
structure AnthSt where
  hasStarted : Bool := false
  messageId : Option Nat := none
  model : Option Json := none
  currentIndex : Int := 0
  contentBlocks : List Json := []
  textAccumulator : String := ""
  hasStartedCurrentBlock : Bool := false
  currentType : Option String := none
  stopReason : Option String := none
  outputTokens : Int := 0
  inputTokens : Int := 0
  functions : Option (List (String × AnthFunc)) := none
  currentToolFunc : Option (Option String) := none

/-- The `content_block` payload of a `content_block_start` event (a
`tool_use` start carries `input:""` in the source; that constant is implied
by the constructor). -/
inductive AnthBlock where
  | text
  | tool_use (id : ToolId) (name : Json)

/-- The `delta` payload of a `content_block_delta` event. -/
inductive AnthDelta where
  | text (t : Json)
  | inputJson (s : Json)

/-- An emitted Anthropic streaming event.  `message_start` carries the
minted message id, the model, and `usage.input_tokens`
(`usage.output_tokens` is the constant 0, and the event's usage object has
no cache fields in the source). -/
inductive AnthEvent where
  | message_start (id : Nat) (model : Option Json) (inputTokens : Int)
  | content_block_start (index : Int) (block : AnthBlock)
  | content_block_delta (index : Int) (delta : AnthDelta)
  | content_block_stop (index : Int)
  | message_delta (stopReason : String) (inputTokens outputTokens : Int)
  | message_stop

/-- `parsed.usage?.<k>`. -/
def usageField (j : Json) (k : String) : Option Json :=
  match j.getF "usage" with
  | some u => u.getF k
  | none => none

/-- `parsed.choices && parsed.choices[0]`. -/
def jsChoice0 (j : Json) : Option Json :=
  match j.getF "choices" with
  | some cs =>
    if cs.truthy then
      match cs.idx0 with
      | some c => if c.truthy then some c else none
      | none => none
    else none
  | none => none

/-- First-frame initialisation and the `usage.prompt_tokens` update. -/
def anthInit (j : Json) (s : AnthSt) (ctr : Nat) : List AnthEvent × AnthSt × Nat :=
  if s.hasStarted then
    if optTruthy (usageField j "prompt_tokens") then
      ([], { s with inputTokens := getNumOr0 (usageField j "prompt_tokens") }, ctr)
    else ([], s, ctr)
  else
    let s' : AnthSt :=
      { s with
        hasStarted := true, messageId := some ctr, model := j.getF "model",
        currentIndex := -1, contentBlocks := [], textAccumulator := "",
        hasStartedCurrentBlock := false, stopReason := none,
        outputTokens := 0, inputTokens := 0 }
    let s'' :=
      if optTruthy (usageField j "prompt_tokens") then
        { s' with inputTokens := getNumOr0 (usageField j "prompt_tokens") }
      else s'
    ([.message_start ctr (j.getF "model") (getNumOr0 (usageField j "prompt_tokens"))],
     s'', ctr + 1)

/-- The `choice.delta?.content` branch. -/
def anthContent (choice : Json) (s : AnthSt) : List AnthEvent × AnthSt :=
  let content? : Option Json :=
    match choice.getF "delta" with
    | some d => d.getF "content"
    | none => none
  if optTruthy content? then
    let c := content?.getD .null
    if s.hasStartedCurrentBlock then
      ([.content_block_delta s.currentIndex (.text c)],
       { s with textAccumulator := s.textAccumulator ++ jsStr c })
    else
      let idx := s.currentIndex + 1
      ([.content_block_start idx .text, .content_block_delta idx (.text c)],
       { s with
         currentIndex := idx, hasStartedCurrentBlock := true,
         currentType := some "text", textAccumulator := jsStr c })
  else ([], s)

def anthLookup (o : Option (List (String × AnthFunc))) (k : String) : Option AnthFunc :=
  (o.getD []).lookup k

/-- `incompleteResult.currentToolFunc.input += toolFunc.arguments` resolved
through the key reference. -/
def anthAppendInput (l : List (String × AnthFunc)) (k : String) (x : Json) :
    List (String × AnthFunc) :=
  l.map (fun p =>
    if p.1 = k then (p.1, { p.2 with input := .str (p.2.input.coerce ++ jsStr x) })
    else p)

/-- The `toolFunc.name` branch of one `toolCallDelta`: mint or take the tool
id, and when no accumulator exists under this name, create it, close an open
text block, and open the `tool_use` block. -/
def anthToolStart (t v : Json) (s : AnthSt) (ctr : Nat) :
    List AnthEvent × AnthSt × Nat :=
  if optTruthy (v.getF "name") then
    let nameJ := (v.getF "name").getD .null
    let key := jsStr nameJ
    let tc : ToolId × Nat :=
      if optTruthy (t.getF "id") then (ToolId.given ((t.getF "id").getD .null), ctr)
      else (ToolId.minted ctr, ctr + 1)
    if (anthLookup s.functions key).isNone then
      let s' : AnthSt :=
        { s with
          functions := some ((s.functions.getD []) ++ [(key, ⟨tc.1, nameJ, .str ""⟩)]),
          currentToolFunc := some (some key) }
      let es : List AnthEvent × AnthSt :=
        if s'.hasStartedCurrentBlock && s'.currentType = some "text" then
          ([.content_block_stop s'.currentIndex], s')
        else ([], s')
      (es.1 ++ [.content_block_start (es.2.currentIndex + 1) (.tool_use tc.1 nameJ)],
       { es.2 with
         currentIndex := es.2.currentIndex + 1, hasStartedCurrentBlock := true,
         currentType := some "tool_use" }, tc.2)
    else ([], s, tc.2)
  else ([], s, ctr)

/-- The `toolFunc.arguments` branch of one `toolCallDelta`: guarded by
`toolFunc.arguments && incompleteResult.currentToolFunc`. -/
def anthToolArgs (v : Json) (r : List AnthEvent × AnthSt × Nat) :
    List AnthEvent × AnthSt × Nat :=
  if optTruthy (v.getF "arguments") then
    match r.2.1.currentToolFunc with
    | some (some key) =>
      (r.1 ++ [.content_block_delta r.2.1.currentIndex
          (.inputJson ((v.getF "arguments").getD .null))],
       { r.2.1 with functions := some (anthAppendInput (r.2.1.functions.getD []) key
           ((v.getF "arguments").getD .null)) }, r.2.2)
    | _ => r
  else r

/-- One `toolCallDelta` of the Anthropic `forEach`. -/
def anthToolDelta (t : Json) (s : AnthSt) (ctr : Nat) :
    Except JsErr (List AnthEvent × AnthSt × Nat) :=
  if t.isNull then .error .typeError
  else match t.getF "function" with
  | none => .error .typeError
  | some v =>
    if v.isNull then .error .typeError
    else .ok (anthToolArgs v (anthToolStart t v s ctr))

def anthToolDeltasRun : List Json → AnthSt → Nat →
    Except JsErr (List AnthEvent × AnthSt × Nat)
  | [], s, ctr => .ok ([], s, ctr)
  | t :: ts, s, ctr =>
    match anthToolDelta t s ctr with
    | .error e => .error e
    | .ok (evs, s', ctr') =>
      match anthToolDeltasRun ts s' ctr' with
      | .error e => .error e
      | .ok (evs', s'', ctr'') => .ok (evs ++ evs', s'', ctr'')

/-- The `choice.delta?.tool_calls` branch. -/
def anthTools (choice : Json) (s : AnthSt) (ctr : Nat) :
    Except JsErr (List AnthEvent × AnthSt × Nat) :=
  let toolCalls? : Option Json :=
    match choice.getF "delta" with
    | some d => d.getF "tool_calls"
    | none => none
  match toolCalls? with
  | some (.arr ts) =>
    if ts.length > 0 then
      let s₀ := if s.functions.isNone then { s with functions := some [] } else s
      let s₁ :=
        match s₀.currentToolFunc with
        | some (some _) => s₀
        | _ => { s₀ with currentToolFunc := some none }
      anthToolDeltasRun ts s₁ ctr
    else .ok ([], s, ctr)
  | some (.str str) =>
    -- a truthy string has `.length > 0` but no `forEach`
    if str ≠ "" then .error .typeError else .ok ([], s, ctr)
  | _ => .ok ([], s, ctr)

/-- The streaming `stopReasonMap` with `|| "end_turn"` fallback. -/
def stopReasonMapStream (o : Option Json) : String :=
  if jsEqStr o "stop" then "end_turn"
  else if jsEqStr o "length" then "max_tokens"
  else if jsEqStr o "tool_calls" then "tool_use"
  else if jsEqStr o "content_filter" then "refusal"
  else "end_turn"

/-- Decode one accumulator's `input` (`try JSON.parse … catch` keeps the
string on failure). -/
def anthDecodeFunc (f : AnthFunc) : AnthFunc :=
  match f.input with
  | .str str =>
    if str ≠ "" then
      match jsonParse str with
      | some v => { f with input := .json v }
      | none => f
    else f
  | .json _ => f

/-- The `choice.finish_reason` branch (mutates the state, emits nothing). -/
def anthFinish (j choice : Json) (s : AnthSt) : AnthSt :=
  if optTruthy (choice.getF "finish_reason") then
    let s₁ : AnthSt :=
      match s.functions with
      | some l => { s with functions := some (l.map (fun p => (p.1, anthDecodeFunc p.2))) }
      | none => s
    { s₁ with
      stopReason := some (stopReasonMapStream (choice.getF "finish_reason")),
      outputTokens := getNumOr0 (usageField j "completion_tokens") }
  else s

/-- Processing of one decoded upstream frame by the Anthropic adapter:
initialisation, then content, then tool calls, then finish reason. -/
def anthFrameStep (j : Json) (s : AnthSt) (ctr : Nat) :
    Except JsErr (List AnthEvent × AnthSt × Nat) :=
  if j.isNull then .error .typeError
  else
    let r₀ := anthInit j s ctr
    match jsChoice0 j with
    | none => .ok r₀
    | some choice =>
      let r₁ := anthContent choice r₀.2.1
      match anthTools choice r₁.2 r₀.2.2 with
      | .error e => .error e
      | .ok (evs₂, s₂, ctr₂) =>
        .ok (r₀.1 ++ r₁.1 ++ evs₂, anthFinish j choice s₂, ctr₂)

/-- The `[DONE]` branch: close an open block, emit `message_delta` when
output tokens were recorded, emit `message_stop`, rebind the state to `{}`. -/
def anthDoneStep (s : AnthSt) : List AnthEvent × AnthSt × Option AnthSt :=
  let evs₁ := if s.hasStartedCurrentBlock then
      [AnthEvent.content_block_stop s.currentIndex] else []
  let evs₂ := if s.outputTokens > 0 then
      [AnthEvent.message_delta (s.stopReason.getD "end_turn") s.inputTokens s.outputTokens]
    else []
  (evs₁ ++ evs₂ ++ [.message_stop], {}, some s)

def anthItemStep : SSEItem → AnthSt → Nat →
    Except JsErr (List AnthEvent × AnthSt × Nat × Option AnthSt)
  | .done, s, ctr =>
    match anthDoneStep s with
    | (evs, s', fz) => .ok (evs, s', ctr, fz)
  | .frame j, s, ctr =>
    match anthFrameStep j s ctr with
    | .error e => .error e
    | .ok (evs, s', ctr') => .ok (evs, s', ctr', none)

def anthRunItems : List SSEItem → AnthSt → Nat → Option AnthSt →
    Except JsErr (List AnthEvent × AnthSt × Nat × Option AnthSt)
  | [], s, ctr, fz => .ok ([], s, ctr, fz)
  | it :: its, s, ctr, fz =>
    match anthItemStep it s ctr with
    | .error e => .error e
    | .ok (evs, s', ctr', r) =>
      match anthRunItems its s' ctr' (fz <|> r) with
      | .error e => .error e
      | .ok (evs', s'', ctr'', fz') => .ok (evs ++ evs', s'', ctr'', fz')

def anthLinesRun : List (List Char) → AnthSt → Nat → Option AnthSt →
    Except JsErr (List AnthEvent × AnthSt × Nat × Option AnthSt)
  | [], s, ctr, fz => .ok ([], s, ctr, fz)
  | line :: ls, s, ctr, fz =>
    match dataPayload line with
    | none => anthLinesRun ls s ctr fz
    | some d =>
      if d = doneMark then
        match anthDoneStep s with
        | (evs, s', r) => .ok (evs, s', ctr, fz <|> r)
      else
        match (match jsonParseL d with
               | some j => anthFrameStep j s ctr
               | none => .error .syntaxError) with
        | .error e => .error e
        | .ok (evs, s', ctr') =>
          match anthLinesRun ls s' ctr' fz with
          | .error e => .error e
          | .ok (evs', s'', ctr'', fz') => .ok (evs ++ evs', s'', ctr'', fz')

def anthMsgsRun : List (List Char) → AnthSt → Nat → Option AnthSt →
    Except JsErr (List AnthEvent × AnthSt × Nat × Option AnthSt)
  | [], s, ctr, fz => .ok ([], s, ctr, fz)
  | m :: ms, s, ctr, fz =>
    if isBlankMsg m then anthMsgsRun ms s ctr fz
    else
      match anthLinesRun (splitNl m) s ctr fz with
      | .error e => .error e
      | .ok (evs, s', ctr', fz') =>
        match anthMsgsRun ms s' ctr' fz' with
        | .error e => .error e
        | .ok (evs', s'', ctr'', fz'') => .ok (evs ++ evs', s'', ctr'', fz'')

namespace AnthropicAdapter

/-- `AnthropicAdapter.parseStreamChunk(buffer, incompleteResult)`, with the
id-minting counter made explicit.  Returns the events, the retained
remainder, the caller-visible state, and the next counter. -/
def parseStreamChunk (buffer : List Char) (state : AnthSt) (ctr : Nat) :
    Except JsErr (List AnthEvent × List Char × AnthSt × Nat) :=
  let (msgs, remain) := sseParts buffer
  match anthMsgsRun msgs state ctr none with
  | .ok (evs, s, ctr', fz) => .ok (evs, remain, fz.getD s, ctr')
  | .error e => .error e

end AnthropicAdapter

/-! ## Claim C2 — Anthropic cached-token accounting -/

/-- First chunk of the cached-tokens fixture stream: role delta with
`usage:{prompt_tokens:100, prompt_tokens_details:{cached_tokens:80}}`. -/
def c2Frame1 : Json :=
  .obj [("model", .str "gpt-4o"),
        ("choices", .arr [.obj [("index", .num 0),
          ("delta", .obj [("role", .str "assistant"), ("content", .str "")]),
          ("finish_reason", .null)]]),
        ("usage", .obj [("prompt_tokens", .num 100),
          ("prompt_tokens_details", .obj [("cached_tokens", .num 80)])])]

/-- Content delta chunk of the cached-tokens fixture stream. -/
def c2Frame2 : Json :=
  .obj [("model", .str "gpt-4o"),
        ("choices", .arr [.obj [("index", .num 0),
          ("delta", .obj [("content", .str "Cached ")]),
          ("finish_reason", .null)]])]

/-- Final chunk of the cached-tokens fixture stream: `finish_reason:"stop"`
with `usage:{prompt_tokens:100, completion_tokens:8,
prompt_tokens_details:{cached_tokens:80}}`. -/
def c2Frame3 : Json :=
  .obj [("model", .str "gpt-4o"),
        ("choices", .arr [.obj [("index", .num 0),
          ("delta", .obj []), ("finish_reason", .str "stop")]]),
        ("usage", .obj [("prompt_tokens", .num 100), ("completion_tokens", .num 8),
          ("prompt_tokens_details", .obj [("cached_tokens", .num 80)])])]

/-- C2: Anthropic cached-token accounting is absent from the code.  On the
cached-tokens stream (upstream `prompt_tokens:100`, `cached_tokens:80`) the
adapter emits `message_start` with `usage.input_tokens = 100` — not the
claimed `100 − 80 = 20` — and `message_delta` with `input_tokens = 100`,
`output_tokens = 8`; by the shape of `AnthEvent`, mirroring the source's
event literals, neither event carries `cache_read_input_tokens` or
`cache_creation_input_tokens`.  The repository's own unit tests
(tests/unit/adapters, "cached tokens in streaming") expect 20 and 80. -/
theorem anthropic_cached_tokens_not_deducted :
    (match anthRunItems [.frame c2Frame1, .frame c2Frame2, .frame c2Frame3, .done] {} 0 none with
     | .ok r => some r.1
     | .error _ => none) =
      some [.message_start 0 (some (.str "gpt-4o")) 100,
            .content_block_start 0 .text,
            .content_block_delta 0 (.text (.str "Cached ")),
            .content_block_stop 0,
            .message_delta "end_turn" 100 8,
            .message_stop] := rfl

/-! ## Claim C3 — adapter tolerance of an arguments-before-name delta -/

/-- A tool-call delta carrying `function.arguments` before any delta carried
a `function.name`. -/
def c3Frame : Json :=
  .obj [("model", .str "m"),
        ("choices", .arr [.obj [("delta",
          .obj [("tool_calls", .arr [.obj [("index", .num 0),
            ("function", .obj [("arguments", .str "x")])]])])]])]

/-- C3: an arguments-before-name tool-call delta makes the Ollama adapter
throw (`incompleteResult.currentToolFunc` is `null`, so
`currentToolFunc.arguments += …` is a TypeError), while the Anthropic
adapter — whose arguments branch is guarded by
`toolFunc.arguments && incompleteResult.currentToolFunc` — skips the
malformed delta and the stream continues.  The claim that no adapter
throws is violated by the Ollama adapter. -/
theorem args_before_name_throws_in_ollama :
    ollamaRunItems [.frame c3Frame] {} none = .error .typeError ∧
    (match anthRunItems [.frame c3Frame] {} 0 none with
     | .ok r => some r.1
     | .error _ => none) = some [.message_start 0 (some (.str "m")) 0] :=
  ⟨rfl, rfl⟩

/-! ## Claim C5 — Anthropic content-block life-cycle invariant -/

/-- The indices of the `content_block_start` events of a stream, in order. -/
def startIdxs (l : List AnthEvent) : List Int :=
  l.filterMap (fun e =>
    match e with
    | .content_block_start i _ => some i
    | _ => none)

/-- `[0, 1, …, n-1]` as integers. -/
def intRange (n : Nat) : List Int :=
  (List.range n).map (fun k => (k : Int))

/-- The life-cycle property claimed for every successful Anthropic stream:
every `content_block_start{index=i}` is preceded by exactly `i` starts at
smaller indices, and every `content_block_stop{index=i}` is preceded by a
matching start at `i`, which is the only start at that index (hence no
intervening start at the same index). -/
def BlockLifecycleOk (l : List AnthEvent) : Prop :=
  (∀ p i b, l.get? p = some (.content_block_start i b) →
    (((startIdxs (l.take p)).filter (fun j => decide (j < i))).length : Int) = i) ∧
  (∀ p i, l.get? p = some (.content_block_stop i) →
    ∃ q, q < p ∧ (∃ b, l.get? q = some (.content_block_start i b)) ∧
      ∀ m b', m ≠ q → l.get? m ≠ some (.content_block_start i b'))

/-- Internal: every stop has a preceding matching start. -/
def StopsEx (l : List AnthEvent) : Prop :=
  ∀ p i, l.get? p = some (.content_block_stop i) →
    ∃ q, q < p ∧ ∃ b, l.get? q = some (.content_block_start i b)

/-- Internal run invariant tying the emitted events to the adapter state:
the starts so far are exactly `0 … n-1`, every stop is matched, and the
state's block cursor agrees with `n`. -/
def StInv (l : List AnthEvent) (s : AnthSt) (n : Nat) : Prop :=
  startIdxs l = intRange n ∧
  StopsEx l ∧
  (s.hasStarted = true → s.currentIndex = (n : Int) - 1) ∧
  (s.hasStarted = false → n = 0 ∧ s.hasStartedCurrentBlock = false) ∧
  (s.hasStartedCurrentBlock = true → s.hasStarted = true ∧ 1 ≤ n)

/-- The events of a successful Anthropic stream consisting of the given
decoded frames followed by `[DONE]` (an unsuccessful stream yields `[]`). -/
def anthEventsOf (js : List Json) : List AnthEvent :=
  match anthRunItems (js.map .frame ++ [.done]) {} 0 none with
  | .ok r => r.1
  | .error _ => []

theorem startIdxs_append (l w : List AnthEvent) :
    startIdxs (l ++ w) = startIdxs l ++ startIdxs w := by
  simp [startIdxs, List.filterMap_append]

theorem intRange_succ (n : Nat) : intRange (n + 1) = intRange n ++ [(n : Int)] := by
  simp [intRange, List.range_succ]

theorem mem_intRange {i : Int} {n : Nat} : i ∈ intRange n ↔ 0 ≤ i ∧ i < n := by
  induction n with
  | zero => simp [intRange]
  | succ m ih =>
    rw [intRange_succ]
    simp only [List.mem_append, List.mem_singleton, ih]
    omega

theorem intRange_nodup (n : Nat) : (intRange n).Nodup := by
  induction n with
  | zero => simp [intRange]
  | succ m ih =>
    rw [intRange_succ]
    refine List.Nodup.append ih (List.nodup_singleton _) ?_
    intro a ha hb
    rw [mem_intRange] at ha
    rw [List.mem_singleton] at hb
    omega

/-- Positions strictly below the old length are unchanged by an append. -/
theorem get?_append_left {l w : List AnthEvent} {p : Nat} (h : p < l.length) :
    (l ++ w).get? p = l.get? p :=
  List.get?_append h

theorem stopsEx_append (l w : List AnthEvent)
    (hl : StopsEx l)
    (hw : ∀ p i, w.get? p = some (.content_block_stop i) →
      ∃ q, (q < l.length + p ∧ ∃ b, (l ++ w).get? q = some (.content_block_start i b))) :
    StopsEx (l ++ w) := by
  intro p i hp
  by_cases hlt : p < l.length
  · rw [get?_append_left hlt] at hp
    obtain ⟨q, hq, b, hb⟩ := hl p i hp
    exact ⟨q, hq, b, by rw [get?_append_left (lt_trans hq hlt)]; exact hb⟩
  · push_neg at hlt
    have hp' : w.get? (p - l.length) = some (.content_block_stop i) := by
      rw [List.get?_append_right hlt] at hp
      exact hp
    obtain ⟨q, hq, b, hb⟩ := hw (p - l.length) i hp'
    refine ⟨q, ?_, b, hb⟩
    omega

theorem mem_startIdxs {l : List AnthEvent} {i : Int} :
    i ∈ startIdxs l ↔ ∃ q b, l.get? q = some (.content_block_start i b) := by
  induction l with
  | nil => simp [startIdxs]
  | cons e tl ih =>
    constructor
    · intro h
      match e with
      | .content_block_start j b =>
        rw [show startIdxs (.content_block_start j b :: tl) = j :: startIdxs tl from rfl,
          List.mem_cons] at h
        rcases h with h | h
        · exact ⟨0, b, by simp [h]⟩
        · obtain ⟨q, b', hq⟩ := ih.mp h
          exact ⟨q + 1, b', by simpa using hq⟩
      | .message_start a m t | .content_block_delta a d | .content_block_stop a
      | .message_delta a b c | .message_stop =>
        obtain ⟨q, b', hq⟩ := ih.mp h
        exact ⟨q + 1, b', by simpa using hq⟩
    · rintro ⟨q, b, hq⟩
      match q with
      | 0 =>
        simp only [List.get?_cons_zero, Option.some.injEq] at hq
        subst hq
        rw [show startIdxs (.content_block_start i b :: tl) = i :: startIdxs tl from rfl]
        exact List.mem_cons_self _ _
      | q' + 1 =>
        simp only [List.get?_cons_succ] at hq
        have hmem := ih.mpr ⟨q', b, hq⟩
        match e with
        | .content_block_start j b'' =>
          rw [show startIdxs (.content_block_start j b'' :: tl) = j :: startIdxs tl from rfl]
          exact List.mem_cons_of_mem _ hmem
        | .message_start a m t => exact hmem
        | .content_block_delta a d => exact hmem
        | .content_block_stop a => exact hmem
        | .message_delta a b'' c => exact hmem
        | .message_stop => exact hmem

theorem start_pos_unique {l : List AnthEvent} (hnd : (startIdxs l).Nodup)
    {q m : Nat} {i : Int} {b b' : AnthBlock}
    (hq : l.get? q = some (.content_block_start i b))
    (hm : l.get? m = some (.content_block_start i b')) : q = m := by
  induction l generalizing q m with
  | nil => simp at hq
  | cons e tl ih =>
    have tl_nodup : (startIdxs tl).Nodup := by
      match e with
      | .content_block_start j b'' =>
        rw [show startIdxs (.content_block_start j b'' :: tl) = j :: startIdxs tl from rfl,
          List.nodup_cons] at hnd
        exact hnd.2
      | .message_start a mo t => exact hnd
      | .content_block_delta a d => exact hnd
      | .content_block_stop a => exact hnd
      | .message_delta a b'' c => exact hnd
      | .message_stop => exact hnd
    match q, m with
    | 0, 0 => rfl
    | 0, m' + 1 =>
      simp only [List.get?_cons_zero, Option.some.injEq] at hq
      simp only [List.get?_cons_succ] at hm
      subst hq
      rw [show startIdxs (.content_block_start i b :: tl) = i :: startIdxs tl from rfl,
        List.nodup_cons] at hnd
      exact absurd (mem_startIdxs.mpr ⟨m', b', hm⟩) hnd.1
    | q' + 1, 0 =>
      simp only [List.get?_cons_zero, Option.some.injEq] at hm
      simp only [List.get?_cons_succ] at hq
      subst hm
      rw [show startIdxs (.content_block_start i b' :: tl) = i :: startIdxs tl from rfl,
        List.nodup_cons] at hnd
      exact absurd (mem_startIdxs.mpr ⟨q', b, hq⟩) hnd.1
    | q' + 1, m' + 1 =>
      simp only [List.get?_cons_succ] at hq hm
      exact congrArg (· + 1) (ih tl_nodup hq hm)

theorem startIdxs_take_prefix (l : List AnthEvent) (p : Nat) :
    startIdxs (l.take p) <+: startIdxs l := by
  obtain ⟨t, ht⟩ := List.take_prefix p l
  refine ⟨startIdxs t, ?_⟩
  rw [← startIdxs_append, ht]

theorem intRange_length (n : Nat) : (intRange n).length = n := by
  induction n with
  | zero => rfl
  | succ m ih => rw [intRange_succ]; simp [ih]

theorem intRange_prefix_mono {a b : Nat} (h : a ≤ b) : intRange a <+: intRange b := by
  induction b with
  | zero =>
    have ha : a = 0 := by omega
    subst ha
    exact List.prefix_refl _
  | succ m ih =>
    rcases Nat.lt_or_ge a (m + 1) with hlt | hge
    · exact (ih (by omega)).trans ⟨[(m : Int)], (intRange_succ m).symm⟩
    · have ha : a = m + 1 := by omega
      subst ha
      exact List.prefix_refl _

theorem prefix_intRange {xs : List Int} {n : Nat} (h : xs <+: intRange n) :
    xs = intRange xs.length := by
  have hlen : xs.length ≤ n := by
    have := h.length_le
    rwa [intRange_length] at this
  have h2 : intRange xs.length <+: intRange n := intRange_prefix_mono hlen
  have e1 : xs = (intRange n).take xs.length := List.prefix_iff_eq_take.mp h
  have e2 : intRange xs.length = (intRange n).take (intRange xs.length).length :=
    List.prefix_iff_eq_take.mp h2
  rw [intRange_length] at e2
  rw [e1, ← e2, intRange_length]

theorem startIdxs_take_succ {l : List AnthEvent} {p : Nat} {i : Int} {b : AnthBlock}
    (hp : l.get? p = some (.content_block_start i b)) :
    startIdxs (l.take (p + 1)) = startIdxs (l.take p) ++ [i] := by
  have hp' : l[p]? = some (.content_block_start i b) := by
    rw [← List.get?_eq_getElem?]
    exact hp
  rw [List.take_succ, startIdxs_append, hp']
  rfl

/-- The claimed life-cycle property follows from the run invariant: the
start indices form `0 … n-1` and every stop has a preceding start. -/
theorem lifecycle_of_inv {l : List AnthEvent} {n : Nat}
    (h1 : startIdxs l = intRange n) (h2 : StopsEx l) : BlockLifecycleOk l := by
  have hnd : (startIdxs l).Nodup := h1 ▸ intRange_nodup n
  constructor
  · intro p i b hp
    set k := (startIdxs (l.take p)).length with hk
    have hpre : startIdxs (l.take p) = intRange k :=
      prefix_intRange (h1 ▸ startIdxs_take_prefix l p)
    have hpre1 : startIdxs (l.take (p + 1)) = intRange (startIdxs (l.take (p + 1))).length :=
      prefix_intRange (h1 ▸ startIdxs_take_prefix l (p + 1))
    have hsucc : startIdxs (l.take (p + 1)) = intRange k ++ [i] := by
      rw [startIdxs_take_succ hp, hpre]
    have hl2 : (intRange k ++ [i]).length = k + 1 := by
      simp [intRange_length]
    rw [hsucc, hl2, intRange_succ] at hpre1
    have hik : i = (k : Int) := by
      have h' := List.append_cancel_left hpre1
      simpa using h'
    have hfilter : (intRange k).filter (fun j => decide (j < i)) = intRange k := by
      rw [List.filter_eq_self]
      intro a ha
      rw [mem_intRange] at ha
      simp only [decide_eq_true_eq]
      omega
    rw [hpre, hfilter, intRange_length, hik]
  · intro p i hp
    obtain ⟨q, hqp, b, hq⟩ := h2 p i hp
    refine ⟨q, hqp, ⟨b, hq⟩, ?_⟩
    intro m b' hne hm
    exact hne (start_pos_unique hnd hm hq)

theorem stopsEx_append_nostop {l : List AnthEvent} (w : List AnthEvent) (hl : StopsEx l)
    (hw : ∀ e ∈ w, ∀ i, e ≠ AnthEvent.content_block_stop i) : StopsEx (l ++ w) := by
  apply stopsEx_append l w hl
  intro p i hp
  exact absurd rfl (hw _ (List.get?_mem hp) i)

theorem startIdxs_eq_nil {w : List AnthEvent}
    (hw : ∀ e ∈ w, ∀ i b, e ≠ AnthEvent.content_block_start i b) : startIdxs w = [] := by
  rw [startIdxs, List.filterMap_eq_nil]
  intro e he
  match e with
  | .content_block_start i b => exact absurd rfl (hw _ he i b)
  | .message_start a m t => rfl
  | .content_block_delta a d => rfl
  | .content_block_stop a => rfl
  | .message_delta a b c => rfl
  | .message_stop => rfl

theorem exists_start_pos {l : List AnthEvent} {n : Nat}
    (h : startIdxs l = intRange n) (hn : 1 ≤ n) :
    ∃ q b, l.get? q = some (.content_block_start ((n : Int) - 1) b) ∧ q < l.length := by
  have hmem : ((n : Int) - 1) ∈ startIdxs l := by
    rw [h, mem_intRange]
    omega
  obtain ⟨q, b, hq⟩ := mem_startIdxs.mp hmem
  refine ⟨q, b, hq, ?_⟩
  by_contra hge
  push_neg at hge
  rw [List.get?_eq_none.mpr hge] at hq
  cases hq

theorem stopsEx_append_stop {l : List AnthEvent} {n : Nat} (w : List AnthEvent)
    (h1 : startIdxs l = intRange n) (h2 : StopsEx l) (hn : 1 ≤ n)
    (hw : ∀ e ∈ w, ∀ i, e = AnthEvent.content_block_stop i → i = (n : Int) - 1) :
    StopsEx (l ++ w) := by
  apply stopsEx_append l w h2
  intro p i hp
  have hi : i = (n : Int) - 1 := hw _ (List.get?_mem hp) i rfl
  subst hi
  obtain ⟨q, b, hq, hlt⟩ := exists_start_pos h1 hn
  refine ⟨q, ⟨by omega, b, ?_⟩⟩
  rw [get?_append_left hlt]
  exact hq

/-- Appending events that are neither starts nor stops, while leaving the
block-cursor fields unchanged, preserves the invariant. -/
theorem stinv_extend_other {l w : List AnthEvent} {s s' : AnthSt} {n : Nat} (h : StInv l s n)
    (hw : ∀ e ∈ w, (∀ i b, e ≠ AnthEvent.content_block_start i b) ∧
      (∀ i, e ≠ AnthEvent.content_block_stop i))
    (e1 : s'.hasStarted = s.hasStarted) (e2 : s'.currentIndex = s.currentIndex)
    (e3 : s'.hasStartedCurrentBlock = s.hasStartedCurrentBlock) :
    StInv (l ++ w) s' n := by
  obtain ⟨h1, h2, h3, h4, h5⟩ := h
  refine ⟨?_, ?_, ?_, ?_, ?_⟩
  · rw [startIdxs_append, startIdxs_eq_nil (fun e he i b => (hw e he).1 i b),
      List.append_nil, h1]
  · exact stopsEx_append_nostop w h2 (fun e he i => (hw e he).2 i)
  · rw [e1, e2]; exact h3
  · rw [e1, e3]; exact h4
  · rw [e3, e1]; exact h5

@[simp] theorem startIdxs_nil : startIdxs [] = [] := rfl

@[simp] theorem startIdxs_cons_start (i : Int) (b : AnthBlock) (tl : List AnthEvent) :
    startIdxs (.content_block_start i b :: tl) = i :: startIdxs tl := rfl

@[simp] theorem startIdxs_cons_msgstart (a : Nat) (m : Option Json) (t : Int)
    (tl : List AnthEvent) : startIdxs (.message_start a m t :: tl) = startIdxs tl := rfl

@[simp] theorem startIdxs_cons_delta (a : Int) (d : AnthDelta) (tl : List AnthEvent) :
    startIdxs (.content_block_delta a d :: tl) = startIdxs tl := rfl

@[simp] theorem startIdxs_cons_stop (a : Int) (tl : List AnthEvent) :
    startIdxs (.content_block_stop a :: tl) = startIdxs tl := rfl

@[simp] theorem startIdxs_cons_msgdelta (a : String) (b c : Int) (tl : List AnthEvent) :
    startIdxs (.message_delta a b c :: tl) = startIdxs tl := rfl

@[simp] theorem startIdxs_cons_msgstop (tl : List AnthEvent) :
    startIdxs (.message_stop :: tl) = startIdxs tl := rfl

theorem anthInit_inv (j : Json) (s : AnthSt) (ctr : Nat) {l : List AnthEvent} {n : Nat}
    (h : StInv l s n) :
    StInv (l ++ (anthInit j s ctr).1) (anthInit j s ctr).2.1 n ∧
      (anthInit j s ctr).2.1.hasStarted = true := by
  unfold anthInit
  by_cases hs : s.hasStarted = true
  · rw [if_pos hs]
    by_cases hu : optTruthy (usageField j "prompt_tokens") = true
    · rw [if_pos hu]
      exact ⟨stinv_extend_other h (by intro e he; simp at he) rfl rfl rfl, hs⟩
    · rw [if_neg hu]
      exact ⟨stinv_extend_other h (by intro e he; simp at he) rfl rfl rfl, hs⟩
  · rw [if_neg hs]
    rw [Bool.not_eq_true] at hs
    obtain ⟨hn0, hscb⟩ := h.2.2.2.1 hs
    obtain ⟨h1, h2, h3, h4, h5⟩ := h
    have main : ∀ s'' : AnthSt, s''.hasStarted = true → s''.currentIndex = -1 →
        s''.hasStartedCurrentBlock = false →
        StInv (l ++ [.message_start ctr (j.getF "model")
          (getNumOr0 (usageField j "prompt_tokens"))]) s'' n := by
      intro s'' e1 e2 e3
      refine ⟨?_, ?_, ?_, ?_, ?_⟩
      · simp [startIdxs_append, h1]
      · exact stopsEx_append_nostop _ h2 (by intro e he i; simp at he; simp [he])
      · intro _
        rw [e2, hn0]
        norm_num
      · intro hfalse
        rw [e1] at hfalse
        cases hfalse
      · intro hb
        rw [e3] at hb
        cases hb
    dsimp only
    by_cases hu : optTruthy (usageField j "prompt_tokens") = true
    · rw [if_pos hu]
      exact ⟨main _ rfl rfl rfl, rfl⟩
    · rw [if_neg hu]
      exact ⟨main _ rfl rfl rfl, rfl⟩

theorem anthContent_inv (choice : Json) (s : AnthSt) {l : List AnthEvent} {n : Nat}
    (h : StInv l s n) (hs : s.hasStarted = true) :
    ∃ n', StInv (l ++ (anthContent choice s).1) (anthContent choice s).2 n' ∧
      (anthContent choice s).2.hasStarted = true := by
  unfold anthContent
  dsimp only
  by_cases hc : optTruthy
      (match choice.getF "delta" with
       | some d => d.getF "content"
       | none => none) = true
  · rw [if_pos hc]
    by_cases hb : s.hasStartedCurrentBlock = true
    · rw [if_pos hb]
      exact ⟨n, stinv_extend_other h (by intro e he; simp at he; simp [he]) rfl rfl rfl, hs⟩
    · rw [if_neg hb]
      obtain ⟨h1, h2, h3, h4, h5⟩ := h
      have hcur : s.currentIndex = (n : Int) - 1 := h3 hs
      refine ⟨n + 1, ⟨?_, ?_, ?_, ?_, ?_⟩, hs⟩
      · have e : (n : Int) - 1 + 1 = (n : Int) := by omega
        simp only [startIdxs_append, startIdxs_cons_start, startIdxs_cons_delta, startIdxs_nil,
          h1, hcur, e, intRange_succ]
      · exact stopsEx_append_nostop _ h2 (by intro e he i; simp at he; rcases he with he | he <;> simp [he])
      · intro _
        dsimp only
        rw [hcur]
        push_cast
        ring
      · intro hf
        dsimp only at hf
        rw [hs] at hf
        cases hf
      · intro _
        exact ⟨hs, by omega⟩
  · rw [if_neg hc]
    exact ⟨n, stinv_extend_other h (by intro e he; simp at he) rfl rfl rfl, hs⟩

/-- Opening a new block — optionally closing the open text block first —
extends the invariant from `n` to `n + 1`. -/
theorem stinv_append_startblock {l : List AnthEvent} {s : AnthSt} {n : Nat} (h : StInv l s n)
    (hs : s.hasStarted = true) (w : List AnthEvent) (b : AnthBlock)
    (hw : w = [.content_block_start (s.currentIndex + 1) b] ∨
      (s.hasStartedCurrentBlock = true ∧
        w = [.content_block_stop s.currentIndex, .content_block_start (s.currentIndex + 1) b]))
    {s' : AnthSt} (e1 : s'.hasStarted = true) (e2 : s'.currentIndex = s.currentIndex + 1)
    (e3 : s'.hasStartedCurrentBlock = true) :
    StInv (l ++ w) s' (n + 1) := by
  obtain ⟨h1, h2, h3, h4, h5⟩ := h
  have hcur : s.currentIndex = (n : Int) - 1 := h3 hs
  have eidx : s.currentIndex + 1 = (n : Int) := by omega
  refine ⟨?_, ?_, ?_, ?_, ?_⟩
  · rcases hw with hw | ⟨_, hw⟩ <;>
      simp only [hw, startIdxs_append, startIdxs_cons_start, startIdxs_cons_stop, startIdxs_nil,
        h1, eidx, intRange_succ]
  · rcases hw with hw | ⟨hb, hw⟩
    · apply stopsEx_append_nostop _ h2
      intro e he i
      simp only [hw, List.mem_singleton] at he
      simp [he]
    · have hn1 : 1 ≤ n := (h5 hb).2
      apply stopsEx_append_stop _ h1 h2 hn1
      intro e he i hei
      subst hei
      simp only [hw, List.mem_cons, List.mem_singleton] at he
      rcases he with he | he | he
      · have : s.currentIndex = i := by
          injection he with h'
          exact h'.symm
        omega
      · cases he
      · cases he
  · intro _
    rw [e2]
    omega
  · intro hf
    rw [e1] at hf
    cases hf
  · intro _
    exact ⟨e1, by omega⟩


/-- The invariant depends on the state only through the three block-cursor
fields. -/
theorem stinv_congr {l : List AnthEvent} {s s' : AnthSt} {n : Nat} (h : StInv l s n)
    (e1 : s'.hasStarted = s.hasStarted) (e2 : s'.currentIndex = s.currentIndex)
    (e3 : s'.hasStartedCurrentBlock = s.hasStartedCurrentBlock) : StInv l s' n := by
  have h2 := @stinv_extend_other l [] s s' n h (by intro e he; cases he) e1 e2 e3
  rwa [List.append_nil] at h2

theorem anthToolStart_inv (t v : Json) (s : AnthSt) (ctr : Nat) {l : List AnthEvent}
    {n : Nat} (h : StInv l s n) (hs : s.hasStarted = true) :
    ∃ n', StInv (l ++ (anthToolStart t v s ctr).1) (anthToolStart t v s ctr).2.1 n' ∧
      (anthToolStart t v s ctr).2.1.hasStarted = true := by
  unfold anthToolStart
  dsimp only
  by_cases hv : optTruthy (v.getF "name") = true
  · rw [if_pos hv]
    by_cases hlk : (anthLookup s.functions (jsStr ((v.getF "name").getD .null))).isNone = true
    · rw [if_pos hlk]
      by_cases hb :
          (s.hasStartedCurrentBlock && decide (s.currentType = some "text")) = true
      · rw [if_pos hb]
        have hscb : s.hasStartedCurrentBlock = true := (Bool.and_eq_true _ _ ▸ hb).1
        exact ⟨n + 1,
          stinv_append_startblock h hs _ _ (Or.inr ⟨hscb, rfl⟩) hs rfl rfl, hs⟩
      · rw [if_neg hb]
        exact ⟨n + 1, stinv_append_startblock h hs _ _ (Or.inl rfl) hs rfl rfl, hs⟩
    · rw [if_neg hlk]
      exact ⟨n, by rw [List.append_nil]; exact h, hs⟩
  · rw [if_neg hv]
    exact ⟨n, by rw [List.append_nil]; exact h, hs⟩

theorem anthToolArgs_inv (v : Json) (r : List AnthEvent × AnthSt × Nat)
    {l : List AnthEvent} {n : Nat} (h : StInv (l ++ r.1) r.2.1 n)
    (hs : r.2.1.hasStarted = true) :
    StInv (l ++ (anthToolArgs v r).1) (anthToolArgs v r).2.1 n ∧
      (anthToolArgs v r).2.1.hasStarted = true := by
  unfold anthToolArgs
  by_cases ha : optTruthy (v.getF "arguments") = true
  · rw [if_pos ha]
    cases hc : r.2.1.currentToolFunc with
    | none => exact ⟨h, hs⟩
    | some o =>
      cases o with
      | none => exact ⟨h, hs⟩
      | some key =>
        dsimp only
        refine ⟨?_, hs⟩
        rw [← List.append_assoc]
        exact stinv_extend_other h (by intro e he; simp at he; simp [he]) rfl rfl rfl
  · rw [if_neg ha]
    exact ⟨h, hs⟩

theorem anthToolDelta_inv {t : Json} {s : AnthSt} {ctr : Nat} {evs : List AnthEvent}
    {s' : AnthSt} {ctr' : Nat} {l : List AnthEvent} {n : Nat}
    (hok : anthToolDelta t s ctr = .ok (evs, s', ctr'))
    (h : StInv l s n) (hs : s.hasStarted = true) :
    ∃ n', StInv (l ++ evs) s' n' ∧ s'.hasStarted = true := by
  unfold anthToolDelta at hok
  by_cases ht : t.isNull = true
  · rw [if_pos ht] at hok; cases hok
  · rw [if_neg ht] at hok
    cases hf : t.getF "function" with
    | none => rw [hf] at hok; cases hok
    | some v =>
      rw [hf] at hok
      dsimp only at hok
      by_cases hvn : v.isNull = true
      · rw [if_pos hvn] at hok; cases hok
      · rw [if_neg hvn] at hok
        simp only [Except.ok.injEq] at hok
        obtain ⟨n₁, h₁, hs₁⟩ := anthToolStart_inv t v s ctr h hs
        obtain ⟨h₂, hs₂⟩ := anthToolArgs_inv v (anthToolStart t v s ctr) h₁ hs₁
        rw [hok] at h₂ hs₂
        exact ⟨n₁, h₂, hs₂⟩

theorem anthToolDeltasRun_inv (ts : List Json) : ∀ {s : AnthSt} {ctr : Nat}
    {evs : List AnthEvent} {s' : AnthSt} {ctr' : Nat} {l : List AnthEvent} {n : Nat},
    anthToolDeltasRun ts s ctr = .ok (evs, s', ctr') →
    StInv l s n → s.hasStarted = true →
    ∃ n', StInv (l ++ evs) s' n' ∧ s'.hasStarted = true := by
  induction ts with
  | nil =>
    intro s ctr evs s' ctr' l n hok h hs
    simp only [anthToolDeltasRun, Except.ok.injEq, Prod.mk.injEq] at hok
    obtain ⟨he, hs2, _⟩ := hok
    subst he
    subst hs2
    exact ⟨n, by rw [List.append_nil]; exact h, hs⟩
  | cons t ts ih =>
    intro s ctr evs s' ctr' l n hok h hs
    rw [anthToolDeltasRun] at hok
    cases hd : anthToolDelta t s ctr with
    | error e => rw [hd] at hok; cases hok
    | ok r =>
      rw [hd] at hok
      obtain ⟨evs₁, s₁, ctr₁⟩ := r
      dsimp only at hok
      cases hr : anthToolDeltasRun ts s₁ ctr₁ with
      | error e => rw [hr] at hok; cases hok
      | ok r₂ =>
        rw [hr] at hok
        obtain ⟨evs₂, s₂, ctr₂⟩ := r₂
        dsimp only at hok
        simp only [Except.ok.injEq, Prod.mk.injEq] at hok
        obtain ⟨he, hs2, _⟩ := hok
        subst he
        subst hs2
        obtain ⟨n₁, h₁, hs₁⟩ := anthToolDelta_inv hd h hs
        obtain ⟨n₂, h₂, hs₂'⟩ := ih hr h₁ hs₁
        exact ⟨n₂, by rw [← List.append_assoc]; exact h₂, hs₂'⟩

theorem anthTools_inv {choice : Json} {s : AnthSt} {ctr : Nat} {evs : List AnthEvent}
    {s' : AnthSt} {ctr' : Nat} {l : List AnthEvent} {n : Nat}
    (hok : anthTools choice s ctr = .ok (evs, s', ctr'))
    (h : StInv l s n) (hs : s.hasStarted = true) :
    ∃ n', StInv (l ++ evs) s' n' ∧ s'.hasStarted = true := by
  unfold anthTools at hok
  dsimp only at hok
  cases htc : (match choice.getF "delta" with
               | some d => d.getF "tool_calls"
               | none => none) with
  | none =>
    rw [htc] at hok
    simp only [Except.ok.injEq, Prod.mk.injEq] at hok
    obtain ⟨he, hs2, _⟩ := hok
    subst he
    subst hs2
    exact ⟨n, by rw [List.append_nil]; exact h, hs⟩
  | some tc =>
    rw [htc] at hok
    cases tc with
    | arr ts =>
      dsimp only at hok
      by_cases hlen : ts.length > 0
      · rw [if_pos hlen] at hok
        by_cases hfn : s.functions.isNone = true
        · rw [if_pos hfn] at hok
          cases hct : (AnthSt.currentToolFunc { s with functions := some [] }) with
          | none =>
            rw [hct] at hok
            exact anthToolDeltasRun_inv ts hok (stinv_congr h rfl rfl rfl) hs
          | some o =>
            rw [hct] at hok
            cases o with
            | none =>
              dsimp only at hok
              exact anthToolDeltasRun_inv ts hok (stinv_congr h rfl rfl rfl) hs
            | some k =>
              dsimp only at hok
              exact anthToolDeltasRun_inv ts hok (stinv_congr h rfl rfl rfl) hs
        · rw [if_neg hfn] at hok
          cases hct : s.currentToolFunc with
          | none =>
            rw [hct] at hok
            exact anthToolDeltasRun_inv ts hok (stinv_congr h rfl rfl rfl) hs
          | some o =>
            rw [hct] at hok
            cases o with
            | none =>
              dsimp only at hok
              exact anthToolDeltasRun_inv ts hok (stinv_congr h rfl rfl rfl) hs
            | some k =>
              dsimp only at hok
              exact anthToolDeltasRun_inv ts hok (stinv_congr h rfl rfl rfl) hs
      · rw [if_neg hlen] at hok
        simp only [Except.ok.injEq, Prod.mk.injEq] at hok
        obtain ⟨he, hs2, _⟩ := hok
        subst he
        subst hs2
        exact ⟨n, by rw [List.append_nil]; exact h, hs⟩
    | str str =>
      dsimp only at hok
      by_cases hstr : str ≠ ""
      · rw [if_pos hstr] at hok; cases hok
      · rw [if_neg hstr] at hok
        simp only [Except.ok.injEq, Prod.mk.injEq] at hok
        obtain ⟨he, hs2, _⟩ := hok
        subst he
        subst hs2
        exact ⟨n, by rw [List.append_nil]; exact h, hs⟩
    | null =>
      simp only [Except.ok.injEq, Prod.mk.injEq] at hok
      obtain ⟨he, hs2, _⟩ := hok
      subst he
      subst hs2
      exact ⟨n, by rw [List.append_nil]; exact h, hs⟩
    | bool b =>
      simp only [Except.ok.injEq, Prod.mk.injEq] at hok
      obtain ⟨he, hs2, _⟩ := hok
      subst he
      subst hs2
      exact ⟨n, by rw [List.append_nil]; exact h, hs⟩
    | num m =>
      simp only [Except.ok.injEq, Prod.mk.injEq] at hok
      obtain ⟨he, hs2, _⟩ := hok
      subst he
      subst hs2
      exact ⟨n, by rw [List.append_nil]; exact h, hs⟩
    | obj o =>
      simp only [Except.ok.injEq, Prod.mk.injEq] at hok
      obtain ⟨he, hs2, _⟩ := hok
      subst he
      subst hs2
      exact ⟨n, by rw [List.append_nil]; exact h, hs⟩

theorem anthFinish_fields (j choice : Json) (s : AnthSt) :
    (anthFinish j choice s).hasStarted = s.hasStarted ∧
    (anthFinish j choice s).currentIndex = s.currentIndex ∧
    (anthFinish j choice s).hasStartedCurrentBlock = s.hasStartedCurrentBlock := by
  unfold anthFinish
  by_cases hf : optTruthy (choice.getF "finish_reason") = true
  · rw [if_pos hf]
    cases hfn : s.functions with
    | none => exact ⟨rfl, rfl, rfl⟩
    | some fl => exact ⟨rfl, rfl, rfl⟩
  · rw [if_neg hf]
    exact ⟨rfl, rfl, rfl⟩

theorem anthFrameStep_inv {j : Json} {s : AnthSt} {ctr : Nat} {evs : List AnthEvent}
    {s' : AnthSt} {ctr' : Nat} {l : List AnthEvent} {n : Nat}
    (hok : anthFrameStep j s ctr = .ok (evs, s', ctr'))
    (h : StInv l s n) :
    ∃ n', StInv (l ++ evs) s' n' ∧ s'.hasStarted = true := by
  unfold anthFrameStep at hok
  by_cases hj : j.isNull = true
  · rw [if_pos hj] at hok; cases hok
  · rw [if_neg hj] at hok
    dsimp only at hok
    obtain ⟨hinit, hst0⟩ := anthInit_inv j s ctr h
    cases hc : jsChoice0 j with
    | none =>
      rw [hc] at hok
      simp only [Except.ok.injEq] at hok
      rw [hok] at hinit hst0
      exact ⟨n, hinit, hst0⟩
    | some choice =>
      rw [hc] at hok
      dsimp only at hok
      obtain ⟨n₁, hcon, hs₁⟩ := anthContent_inv choice (anthInit j s ctr).2.1 hinit hst0
      cases ht : anthTools choice (anthContent choice (anthInit j s ctr).2.1).2
          (anthInit j s ctr).2.2 with
      | error e => rw [ht] at hok; cases hok
      | ok r₂ =>
        rw [ht] at hok
        obtain ⟨evs₂, s₂, ctr₂⟩ := r₂
        dsimp only at hok
        simp only [Except.ok.injEq, Prod.mk.injEq] at hok
        obtain ⟨he, hs2, _⟩ := hok
        subst he
        subst hs2
        obtain ⟨n₂, htool, hs₂⟩ := anthTools_inv ht hcon hs₁
        refine ⟨n₂, ?_, ?_⟩
        · rw [← List.append_assoc, ← List.append_assoc]
          exact stinv_congr htool (anthFinish_fields j choice s₂).1
            (anthFinish_fields j choice s₂).2.1 (anthFinish_fields j choice s₂).2.2
        · rw [(anthFinish_fields j choice s₂).1]
          exact hs₂

/-- Running only decoded frames preserves the invariant. -/
theorem anthFramesRun_inv (js : List Json) : ∀ {s : AnthSt} {ctr : Nat}
    {evs : List AnthEvent} {s' : AnthSt} {ctr' : Nat} {fz fz' : Option AnthSt}
    {l : List AnthEvent} {n : Nat},
    anthRunItems (js.map .frame) s ctr fz = .ok (evs, s', ctr', fz') →
    StInv l s n →
    ∃ n', StInv (l ++ evs) s' n' := by
  induction js with
  | nil =>
    intro s ctr evs s' ctr' fz fz' l n hok h
    simp only [List.map_nil, anthRunItems, Except.ok.injEq, Prod.mk.injEq] at hok
    obtain ⟨he, hs2, _⟩ := hok
    subst he
    subst hs2
    exact ⟨n, by rw [List.append_nil]; exact h⟩
  | cons j js ih =>
    intro s ctr evs s' ctr' fz fz' l n hok h
    rw [List.map_cons, anthRunItems] at hok
    dsimp only [anthItemStep] at hok
    cases hfs : anthFrameStep j s ctr with
    | error e => rw [hfs] at hok; cases hok
    | ok r =>
      rw [hfs] at hok
      obtain ⟨evs₁, s₁, ctr₁⟩ := r
      dsimp only at hok
      cases hrec : anthRunItems (js.map .frame) s₁ ctr₁ (fz <|> none) with
      | error e => rw [hrec] at hok; cases hok
      | ok r₂ =>
        rw [hrec] at hok
        obtain ⟨evs₂, s₂, ctr₂, fz₂⟩ := r₂
        dsimp only at hok
        simp only [Except.ok.injEq, Prod.mk.injEq] at hok
        obtain ⟨he, hs2, _⟩ := hok
        subst he
        subst hs2
        obtain ⟨n₁, h₁, _⟩ := anthFrameStep_inv hfs h
        obtain ⟨n₂, h₂⟩ := ih hrec h₁
        exact ⟨n₂, by rw [← List.append_assoc]; exact h₂⟩

theorem anthRunItems_append (xs ys : List SSEItem) (s : AnthSt) (ctr : Nat)
    (fz : Option AnthSt) :
    anthRunItems (xs ++ ys) s ctr fz =
      match anthRunItems xs s ctr fz with
      | .ok (e1, s1, c1, f1) =>
        match anthRunItems ys s1 c1 f1 with
        | .ok (e2, s2, c2, f2) => .ok (e1 ++ e2, s2, c2, f2)
        | .error e => .error e
      | .error e => .error e := by
  induction xs generalizing s ctr fz with
  | nil => cases h : anthRunItems ys s ctr fz <;> simp [anthRunItems, h]
  | cons it its ih =>
    simp only [List.cons_append, anthRunItems]
    cases anthItemStep it s ctr with
    | error e => rfl
    | ok r =>
      obtain ⟨evs, s', ctr', reb⟩ := r
      dsimp only
      rw [show List.append its ys = its ++ ys from rfl, ih]
      cases anthRunItems its s' ctr' (fz <|> reb) with
      | error e => rfl
      | ok r2 =>
        obtain ⟨e1, s1, c1, f1⟩ := r2
        dsimp only
        cases anthRunItems ys s1 c1 f1 with
        | error e => rfl
        | ok r3 =>
          obtain ⟨e2, s2, c2, f2⟩ := r3
          dsimp only
          rw [List.append_assoc]

theorem anthRunItems_done_single (s : AnthSt) (ctr : Nat) (fz : Option AnthSt) :
    anthRunItems [SSEItem.done] s ctr fz =
      .ok ((anthDoneStep s).1, {}, ctr, fz <|> some s) := by
  rw [anthRunItems]
  dsimp only [anthItemStep, anthDoneStep]
  rw [anthRunItems]
  dsimp only
  rw [List.append_nil]

theorem lifecycle_nil : BlockLifecycleOk ([] : List AnthEvent) := by
  constructor
  · intro p i b hp
    simp [List.get?] at hp
  · intro p i hp
    simp [List.get?] at hp

theorem stinv_init : StInv [] ({} : AnthSt) 0 := by
  refine ⟨rfl, ?_, ?_, ?_, ?_⟩
  · intro p i hp
    simp [List.get?] at hp
  · intro hf
    cases hf
  · intro _
    exact ⟨rfl, rfl⟩
  · intro hb
    cases hb

/-- Closing the stream with the `[DONE]` branch after any invariant-respecting
prefix yields a list satisfying the block life-cycle. -/
theorem anthDoneStep_lifecycle {l : List AnthEvent} {s : AnthSt} {n : Nat}
    (h : StInv l s n) : BlockLifecycleOk (l ++ (anthDoneStep s).1) := by
  obtain ⟨h1, h2, h3, h4, h5⟩ := h
  unfold anthDoneStep
  dsimp only
  by_cases hb : s.hasStartedCurrentBlock = true
  · rw [if_pos hb]
    have hn1 : 1 ≤ n := (h5 hb).2
    have hst : s.hasStarted = true := (h5 hb).1
    have hcur : s.currentIndex = (n : Int) - 1 := h3 hst
    have hstops : ∀ (w : List AnthEvent),
        (∀ e ∈ w, ∀ i, e = AnthEvent.content_block_stop i → i = (n : Int) - 1) →
        StopsEx (l ++ w) := fun w hw => stopsEx_append_stop w h1 h2 hn1 hw
    by_cases ho : s.outputTokens > 0
    · rw [if_pos ho]
      refine @lifecycle_of_inv _ n ?_ ?_
      · simp [startIdxs_append, h1]
      · apply hstops
        intro e he i hei
        subst hei
        simp only [List.cons_append, List.nil_append, List.mem_cons,
          List.not_mem_nil, or_false] at he
        rcases he with he | he | he
        · injection he with h'
          omega
        · cases he
        · cases he
    · rw [if_neg ho]
      refine @lifecycle_of_inv _ n ?_ ?_
      · simp [startIdxs_append, h1]
      · apply hstops
        intro e he i hei
        subst hei
        simp only [List.cons_append, List.nil_append, List.mem_cons,
          List.not_mem_nil, or_false] at he
        rcases he with he | he
        · injection he with h'
          omega
        · cases he
  · rw [if_neg hb]
    by_cases ho : s.outputTokens > 0
    · rw [if_pos ho]
      refine @lifecycle_of_inv _ n ?_ ?_
      · simp [startIdxs_append, h1]
      · apply stopsEx_append_nostop _ h2
        intro e he i
        simp at he
        rcases he with he | he <;> simp [he]
    · rw [if_neg ho]
      refine @lifecycle_of_inv _ n ?_ ?_
      · simp [startIdxs_append, h1]
      · apply stopsEx_append_nostop _ h2
        intro e he i
        simp at he
        simp [he]

/-- C5: In the Anthropic streaming translation, content-block events are
well-bracketed and indices increase by one: over any upstream frame list
followed by `[DONE]`, every emitted `content_block_start` with `index = i` is
preceded by starts at exactly the indices `0 … i-1` (so indices start at 0 and
increase by exactly one), and every `content_block_stop` refers to the single
previously started block with that index, with no intervening start at the
same index. -/
theorem anthropic_block_lifecycle (js : List Json) :
    BlockLifecycleOk (anthEventsOf js) := by
  unfold anthEventsOf
  rw [anthRunItems_append]
  cases hfr : anthRunItems (js.map .frame) {} 0 none with
  | error e => exact lifecycle_nil
  | ok r =>
    obtain ⟨evs, s', ctr', fz'⟩ := r
    dsimp only
    rw [anthRunItems_done_single]
    dsimp only
    obtain ⟨n, hinv⟩ := anthFramesRun_inv js hfr stinv_init
    rw [List.nil_append] at hinv
    exact anthDoneStep_lifecycle hinv

/-! ## OpenAI adapter — pass-through (claim C6) -/

namespace OpenAIAdapter

/-- `convertRequest(payload) { return payload; }`. -/
def convertRequest (payload : Json) : Json := payload

/-- `parseResponse(response) { return response; }`. -/
def parseResponse (response : Json) : Json := response

end OpenAIAdapter

/-- C6: The OpenAI adapter is a pass-through: for every inbound payload `P`,
`OpenAIAdapter.convertRequest P = P`, and for every unary response `R`,
`OpenAIAdapter.parseResponse R = R`. -/
theorem openai_passthrough_roundtrip (P R : Json) :
    OpenAIAdapter.convertRequest P = P ∧ OpenAIAdapter.parseResponse R = R :=
  ⟨rfl, rfl⟩

/-! ## Anthropic adapter — unary `parseResponse` (claim C8)

`Date.now()`/`Math.random()`-minted identifiers are determinised by a `Nat`
counter as in the streaming embedding.  `for (const x of e)` iterates the
elements of an array and the one-character strings of a string and throws
`TypeError` otherwise; `usage?.f || 0` is read with `getNumOr0`. -/

/-- The unary `stopReasonMap` object literal with the `|| "end_turn"`
fallback; the `finishReason` default `|| "stop"` also lands on `"end_turn"`. -/
def stopReasonMapUnary (o : Option Json) : String :=
  if jsEqStr o "stop" then "end_turn"
  else if jsEqStr o "length" then "max_tokens"
  else if jsEqStr o "tool_calls" then "tool_use"
  else if jsEqStr o "content_filter" then "stop_sequence"
  else "end_turn"

/-- A content block of the unary Anthropic response. -/
inductive AnthRespBlock where
  | text (t : Json)
  | tool_use (id : ToolId) (name : Json) (input : Json)

/-- The unary Anthropic response object. -/
structure AnthResp where
  id : Nat
  content : List AnthRespBlock
  model : Option Json
  stop_reason : String
  input_tokens : Int
  output_tokens : Int

/-- `let input = {}; if (args) try input = JSON.parse(args) catch
input = {arguments: args}` (`JSON.parse` string-coerces its argument). -/
def anthUnaryInput (args? : Option Json) : Json :=
  if optTruthy args? then
    match jsonParse (jsStr (args?.getD .null)) with
    | some v => v
    | none => .obj [("arguments", args?.getD .null)]
  else .obj []

/-- One `toolCall` of the unary loop: `{type:"tool_use", id: toolCall.id ||
minted, name: toolCall.function?.name || "unknown", input}`. -/
def anthUnaryToolBlock (ctr : Nat) (tc : Json) : AnthRespBlock × Nat :=
  let fn? := tc.getF "function"
  let input := anthUnaryInput (fn?.bind (fun f => f.getF "arguments"))
  let name : Json :=
    if optTruthy (fn?.bind (fun f => f.getF "name")) then
      (fn?.bind (fun f => f.getF "name")).getD .null
    else .str "unknown"
  if optTruthy (tc.getF "id") then
    (.tool_use (.given ((tc.getF "id").getD .null)) name input, ctr)
  else (.tool_use (.minted ctr) name input, ctr + 1)

def anthUnaryToolBlocks (ctr : Nat) : List Json → List AnthRespBlock × Nat
  | [] => ([], ctr)
  | tc :: tcs =>
    let r := anthUnaryToolBlock ctr tc
    let rs := anthUnaryToolBlocks r.2 tcs
    (r.1 :: rs.1, rs.2)

/-- One `choice` of the unary loop (`message.content !== ""` is subsumed by
the truthiness test, `""` being falsy). -/
def anthUnaryChoiceBlocks (ctr : Nat) (choice : Json) : List AnthRespBlock × Nat :=
  let content? := (choice.getF "message").bind (fun m => m.getF "content")
  let textBlocks : List AnthRespBlock :=
    if optTruthy content? then [.text (content?.getD .null)] else []
  let tcs := ((choice.getF "message").bind (fun m => m.getF "tool_calls")).getD .null
  match tcs with
  | .arr l =>
    if l.length > 0 then
      let r := anthUnaryToolBlocks ctr l
      (textBlocks ++ r.1, r.2)
    else (textBlocks, ctr)
  | .str s =>
    if s.length > 0 then
      let r := anthUnaryToolBlocks ctr (s.data.map (fun c => .str (String.mk [c])))
      (textBlocks ++ r.1, r.2)
    else (textBlocks, ctr)
  | _ => (textBlocks, ctr)

def anthUnaryAllBlocks (ctr : Nat) : List Json → List AnthRespBlock × Nat
  | [] => ([], ctr)
  | c :: cs =>
    let r := anthUnaryChoiceBlocks ctr c
    let rs := anthUnaryAllBlocks r.2 cs
    (r.1 ++ rs.1, rs.2)

namespace AnthropicAdapter

/-- The unary `parseResponse`: content blocks from each choice, then
`stop_reason` from `choices[0]?.finish_reason || "stop"` through the unary
`stopReasonMap`, and usage from `usage?.prompt_tokens/completion_tokens || 0`. -/
def parseResponse (openaiResp : Json) (ctr : Nat) : Except JsErr AnthResp :=
  let choices := (openaiResp.getF "choices").getD .null
  let build : List Json → AnthResp := fun cl =>
    let bl := anthUnaryAllBlocks (ctr + 1) cl
    let fr? : Option Json :=
      match choices.idx0 with
      | some c => c.getF "finish_reason"
      | none => none
    { id := ctr, content := bl.1, model := openaiResp.getF "model",
      stop_reason := stopReasonMapUnary fr?,
      input_tokens := getNumOr0 (usageField openaiResp "prompt_tokens"),
      output_tokens := getNumOr0 (usageField openaiResp "completion_tokens") }
  match choices with
  | .arr l => .ok (build l)
  | .str s => .ok (build (s.data.map (fun c => .str (String.mk [c]))))
  | _ => .error .typeError

end AnthropicAdapter

/-! ## Claim C8 — unary stop_reason mapping -/

/-- A unary response whose first choice finished with `content_filter`. -/
def c8Resp : Json := .obj [
  ("model", .str "m"),
  ("choices", .arr [.obj [
    ("finish_reason", .str "content_filter"),
    ("message", .obj [("content", .str "Filtered")])]]),
  ("usage", .obj [("prompt_tokens", .num 3), ("completion_tokens", .num 1)])]

/-- C8 (counterexample): the unary `parseResponse` maps `content_filter` to
`"stop_sequence"`, not to `"refusal"` as the streaming table (and the claim)
has it. -/
theorem anthropic_unary_content_filter_diverges :
    (match AnthropicAdapter.parseResponse c8Resp 0 with
     | .ok r => some r.stop_reason
     | .error _ => none) = some "stop_sequence" ∧
    stopReasonMapStream (some (.str "content_filter")) = "refusal" ∧
    "stop_sequence" ≠ "refusal" :=
  ⟨rfl, rfl, by decide⟩

/-- C8 (amended): the unary `parseResponse` maps `finish_reason` to
`stop_reason` through the unary table — `stop → end_turn`,
`length → max_tokens`, `tool_calls → tool_use`,
`content_filter → stop_sequence` — with `end_turn` as fallback. -/
theorem anthropic_unary_stop_reason_mapping (resp : Json) (ctr : Nat) (r : AnthResp)
    (hok : AnthropicAdapter.parseResponse resp ctr = .ok r) :
    r.stop_reason = stopReasonMapUnary
      (match ((resp.getF "choices").getD .null).idx0 with
       | some c => c.getF "finish_reason"
       | none => none) ∧
    stopReasonMapUnary (some (.str "stop")) = "end_turn" ∧
    stopReasonMapUnary (some (.str "length")) = "max_tokens" ∧
    stopReasonMapUnary (some (.str "tool_calls")) = "tool_use" ∧
    stopReasonMapUnary (some (.str "content_filter")) = "stop_sequence" := by
  refine ⟨?_, rfl, rfl, rfl, rfl⟩
  unfold AnthropicAdapter.parseResponse at hok
  dsimp only at hok
  generalize hch : (resp.getF "choices").getD Json.null = ch at hok ⊢
  cases ch with
  | arr l =>
    simp only [Except.ok.injEq] at hok
    subst hok
    rfl
  | str s =>
    simp only [Except.ok.injEq] at hok
    subst hok
    rfl
  | null => cases hok
  | bool b => cases hok
  | num m => cases hok
  | obj o => cases hok

/-- A unary response finishing with `length`, for the witness below. -/
def c8WitResp : Json := .obj [("choices", .arr [.obj [("finish_reason", .str "length")]])]

theorem anthropic_unary_stop_reason_mapping_witness :
    AnthropicAdapter.parseResponse c8WitResp 0 =
      .ok { id := 0, content := [], model := none, stop_reason := "max_tokens",
            input_tokens := 0, output_tokens := 0 } ∧
    ({ id := 0, content := [], model := none, stop_reason := "max_tokens",
       input_tokens := 0, output_tokens := 0 } : AnthResp).stop_reason =
      stopReasonMapUnary
        (match ((c8WitResp.getF "choices").getD .null).idx0 with
         | some c => c.getF "finish_reason"
         | none => none) :=
  ⟨rfl, (anthropic_unary_stop_reason_mapping c8WitResp 0 _ rfl).1⟩

/-! ## Anthropic adapter — `convertRequest` (claim C10) -/

/-- One character of `JSON.stringify` string escaping. -/
def jsonEscapeChar (c : Char) : String :=
  if c = '"' then "\\\""
  else if c = '\\' then "\\\\"
  else if c = '\n' then "\\n"
  else if c = '\r' then "\\r"
  else if c = '\t' then "\\t"
  else String.mk [c]

mutual

/-- `JSON.stringify` on decoded values. -/
def jsonStringify : Json → String
  | .null => "null"
  | .bool true => "true"
  | .bool false => "false"
  | .num n => toString n
  | .str s => "\"" ++ String.join (s.data.map jsonEscapeChar) ++ "\""
  | .arr l => "[" ++ jsonStringifyItems l ++ "]"
  | .obj f => "\x7b" ++ jsonStringifyFields f ++ "\x7d"

def jsonStringifyItems : List Json → String
  | [] => ""
  | [x] => jsonStringify x
  | x :: y :: xs => jsonStringify x ++ "," ++ jsonStringifyItems (y :: xs)

def jsonStringifyFields : List (String × Json) → String
  | [] => ""
  | [(k, v)] => "\"" ++ String.join (k.data.map jsonEscapeChar) ++ "\":" ++ jsonStringify v
  | (k, v) :: y :: xs =>
    "\"" ++ String.join (k.data.map jsonEscapeChar) ++ "\":" ++ jsonStringify v ++ "," ++
      jsonStringifyFields (y :: xs)

end

/-- Template-literal coercion, where an `undefined` field prints
`"undefined"`. -/
def jsStrU (o : Option Json) : String :=
  match o with
  | none => "undefined"
  | some j => jsStr j

/-- `typeof block.input === "string" ? block.input : JSON.stringify(block.input)`
(`JSON.stringify(undefined)`, which is `undefined`, is modelled as `null`). -/
def anthStringifyInput (o : Option Json) : Json :=
  match o with
  | some (.str s) => .str s
  | some j => .str (jsonStringify j)
  | none => .null

/-- A converted outbound message: `role` always set, `content` and
`tool_calls` present only when assigned. -/
structure ConvMsg where
  role : String
  content : Option Json
  tool_calls : Option (List Json)

/-- One content block of an Anthropic message: contributes content items
and/or `tool_calls` entries.  A `null` block throws on `block.type`. -/
def anthConvBlockStep (isAsst : Bool) (b : Json) : Except JsErr (List Json × List Json) :=
  if b.isNull then .error .typeError
  else if jsEqStr (b.getF "type") "text" then
    .ok ([.obj [("type", .str "text"), ("text", (b.getF "text").getD .null)]], [])
  else if jsEqStr (b.getF "type") "image" then
    match b.getF "source" with
    | none => .error .typeError
    | some src =>
      if src.isNull then .error .typeError
      else
        let mediaType : Json :=
          if optTruthy (src.getF "media_type") then (src.getF "media_type").getD .null
          else .str "image/jpeg"
        .ok ([.obj [("type", .str "image_url"),
          ("image_url", .obj [("url",
            .str ("data:" ++ jsStr mediaType ++ ";base64," ++ jsStrU (src.getF "data")))])]],
          [])
  else if jsEqStr (b.getF "type") "tool_use" && isAsst then
    .ok ([], [.obj [("id", (b.getF "id").getD .null), ("type", .str "function"),
      ("function", .obj [("name", (b.getF "name").getD .null),
        ("arguments", anthStringifyInput (b.getF "input"))])]])
  else if jsEqStr (b.getF "type") "tool_result" then
    .ok ([], [.obj [("id", (b.getF "tool_use_id").getD .null), ("type", .str "function"),
      ("function", .obj [("name", .str "tool_result"),
        ("arguments", .str (jsonStringify (.obj (match b.getF "content" with
          | some c => [("result", c)]
          | none => []))))])]])
  else .ok ([], [])

def anthConvBlocks (isAsst : Bool) : List Json → Except JsErr (List Json × List Json)
  | [] => .ok ([], [])
  | b :: bs =>
    match anthConvBlockStep isAsst b with
    | .error e => .error e
    | .ok r =>
      match anthConvBlocks isAsst bs with
      | .error e => .error e
      | .ok rs => .ok (r.1 ++ rs.1, r.2 ++ rs.2)

/-- Conversion of one inbound message (`message.role` on a `null` element
throws; `content` is copied as-is unless it is an array of blocks). -/
def anthConvMsg (message : Json) : Except JsErr ConvMsg :=
  if message.isNull then .error .typeError
  else
    let isAsst := jsEqStr (message.getF "role") "assistant"
    let role := if isAsst then "assistant" else "user"
    match message.getF "content" with
    | some (.arr blocks) =>
      match anthConvBlocks isAsst blocks with
      | .error e => .error e
      | .ok r =>
        .ok { role := role,
              content := if r.1.length > 0 then some (.arr r.1) else none,
              tool_calls := if r.2.isEmpty then none else some r.2 }
    | c => .ok { role := role, content := c, tool_calls := none }

def anthConvMsgs : List Json → Except JsErr (List ConvMsg)
  | [] => .ok []
  | m :: ms =>
    match anthConvMsg m with
    | .error e => .error e
    | .ok cm =>
      match anthConvMsgs ms with
      | .error e => .error e
      | .ok cms => .ok (cm :: cms)

/-- Conversion of the `tools` array (`tool.type` on a `null` element
throws). -/
def anthConvTools : List Json → Except JsErr (List Json)
  | [] => .ok []
  | t :: ts =>
    if t.isNull then .error .typeError
    else
      let entry : List Json :=
        if jsEqStr (t.getF "type") "function" && optTruthy (t.getF "function") then
          [.obj [("type", .str "function"),
            ("function", .obj [
              ("name", ((t.getF "function").bind (fun f => f.getF "name")).getD .null),
              ("description",
                ((t.getF "function").bind (fun f => f.getF "description")).getD .null),
              ("parameters",
                ((t.getF "function").bind (fun f => f.getF "input_schema")).getD .null)])]]
        else if optTruthy (t.getF "name") && optTruthy (t.getF "input_schema") then
          [.obj [("type", .str "function"),
            ("function", .obj [
              ("name", (t.getF "name").getD .null),
              ("description", (t.getF "description").getD .null),
              ("parameters", (t.getF "input_schema").getD .null)])]]
        else []
      match anthConvTools ts with
      | .error e => .error e
      | .ok rest => .ok (entry ++ rest)

/-- The iteration source of `for (const message of payload.messages)`: array
elements, one-character strings of a string, `TypeError` otherwise. -/
def anthMsgsSrc (payload : Json) : Except JsErr (List Json) :=
  match (payload.getF "messages").getD .null with
  | .arr l => .ok l
  | .str s => .ok (s.data.map (fun c => .str (String.mk [c])))
  | _ => .error .typeError

/-- `if (payload.tools && payload.tools.length > 0)` followed by the tool
loop (an exotic non-iterable `tools` object carrying a positive `length`,
which would throw, is not modelled and is skipped). -/
def anthToolsRes (payload : Json) : Except JsErr (Option (List Json)) :=
  match (payload.getF "tools").getD .null with
  | .arr l =>
    if l.length > 0 then
      match anthConvTools l with
      | .error e => .error e
      | .ok ct => .ok (some ct)
    else .ok none
  | .str s =>
    if s.length > 0 then
      match anthConvTools (s.data.map (fun c => .str (String.mk [c]))) with
      | .error e => .error e
      | .ok ct => .ok (some ct)
    else .ok none
  | _ => .ok none

/-- The converted outbound request object. -/
structure OpenAIReq where
  model : Json
  messages : List ConvMsg
  stream : Json
  max_tokens : Option Json
  temperature : Option Json
  top_p : Option Json
  top_k : Option Json
  tools : Option (List Json)

/-- Assembly of the outbound request from the converted parts: defaulted
model, optional sampling fields copied when not `undefined`, a `system`
message pushed first when `payload.system` is truthy. -/
def anthBuildReq (payload : Json) (tls : Option (List Json)) (conv : List ConvMsg) :
    OpenAIReq :=
  { model := if optTruthy (payload.getF "model") then (payload.getF "model").getD .null
             else .str "gpt-4o-2024-11-20",
    messages := (if optTruthy (payload.getF "system") then
        [{ role := "system", content := some ((payload.getF "system").getD .null),
           tool_calls := none }] else []) ++ conv,
    stream := match payload.getF "stream" with
              | some v => v
              | none => .bool false,
    max_tokens := payload.getF "max_tokens",
    temperature := payload.getF "temperature",
    top_p := payload.getF "top_p",
    top_k := payload.getF "top_k",
    tools := tls }

namespace AnthropicAdapter

/-- `convertRequest`: tools are converted before the message loop runs (so a
tools `TypeError` wins), then each message is converted with the role
collapse `message.role === "assistant" ? "assistant" : "user"`. -/
def convertRequest (payload : Json) : Except JsErr OpenAIReq :=
  match anthToolsRes payload with
  | .error e => .error e
  | .ok tls =>
    match anthMsgsSrc payload with
    | .error e => .error e
    | .ok ml =>
      match anthConvMsgs ml with
      | .error e => .error e
      | .ok conv => .ok (anthBuildReq payload tls conv)

end AnthropicAdapter

theorem anthConvMsg_role {m : Json} {cm : ConvMsg}
    (hok : anthConvMsg m = .ok cm) :
    cm.role = if jsEqStr (m.getF "role") "assistant" then "assistant" else "user" := by
  unfold anthConvMsg at hok
  by_cases hn : m.isNull = true
  · rw [if_pos hn] at hok; cases hok
  · rw [if_neg hn] at hok
    dsimp only at hok
    cases hc : m.getF "content" with
    | none =>
      rw [hc] at hok
      dsimp only at hok
      simp only [Except.ok.injEq] at hok
      subst hok
      rfl
    | some j =>
      rw [hc] at hok
      cases j with
      | arr blocks =>
        dsimp only at hok
        cases hb : anthConvBlocks (jsEqStr (m.getF "role") "assistant") blocks with
        | error e => rw [hb] at hok; cases hok
        | ok r =>
          rw [hb] at hok
          dsimp only at hok
          simp only [Except.ok.injEq] at hok
          subst hok
          rfl
      | null =>
        dsimp only at hok
        simp only [Except.ok.injEq] at hok
        subst hok
        rfl
      | bool b =>
        dsimp only at hok
        simp only [Except.ok.injEq] at hok
        subst hok
        rfl
      | num n =>
        dsimp only at hok
        simp only [Except.ok.injEq] at hok
        subst hok
        rfl
      | str s =>
        dsimp only at hok
        simp only [Except.ok.injEq] at hok
        subst hok
        rfl
      | obj o =>
        dsimp only at hok
        simp only [Except.ok.injEq] at hok
        subst hok
        rfl

theorem anthConvMsg_role_cases {m : Json} {cm : ConvMsg} (hok : anthConvMsg m = .ok cm) :
    cm.role = "assistant" ∨ cm.role = "user" := by
  rw [anthConvMsg_role hok]
  by_cases h : jsEqStr (m.getF "role") "assistant" = true
  · rw [if_pos h]; exact Or.inl rfl
  · rw [if_neg h]; exact Or.inr rfl

theorem anthConvMsgs_roles : ∀ {ml : List Json} {conv : List ConvMsg},
    anthConvMsgs ml = .ok conv →
    List.Forall₂ (fun (m : Json) (cm : ConvMsg) =>
      cm.role = if jsEqStr (m.getF "role") "assistant" then "assistant" else "user")
      ml conv := by
  intro ml
  induction ml with
  | nil =>
    intro conv hok
    simp only [anthConvMsgs, Except.ok.injEq] at hok
    subst hok
    exact .nil
  | cons m ms ih =>
    intro conv hok
    rw [anthConvMsgs] at hok
    cases hm : anthConvMsg m with
    | error e => rw [hm] at hok; cases hok
    | ok cm =>
      rw [hm] at hok
      dsimp only at hok
      cases hms : anthConvMsgs ms with
      | error e => rw [hms] at hok; cases hok
      | ok cms =>
        rw [hms] at hok
        dsimp only at hok
        simp only [Except.ok.injEq] at hok
        subst hok
        exact .cons (anthConvMsg_role hm) (ih hms)

theorem anthConvMsgs_no_system : ∀ {ml : List Json} {conv : List ConvMsg},
    anthConvMsgs ml = .ok conv →
    ∀ cm ∈ conv, cm.role = "assistant" ∨ cm.role = "user" := by
  intro ml
  induction ml with
  | nil =>
    intro conv hok
    simp only [anthConvMsgs, Except.ok.injEq] at hok
    subst hok
    intro cm hcm
    cases hcm
  | cons m ms ih =>
    intro conv hok
    rw [anthConvMsgs] at hok
    cases hm : anthConvMsg m with
    | error e => rw [hm] at hok; cases hok
    | ok cm =>
      rw [hm] at hok
      dsimp only at hok
      cases hms : anthConvMsgs ms with
      | error e => rw [hms] at hok; cases hok
      | ok cms =>
        rw [hms] at hok
        dsimp only at hok
        simp only [Except.ok.injEq] at hok
        subst hok
        intro cm' hcm'
        rcases List.mem_cons.mp hcm' with h | h
        · subst h
          exact anthConvMsg_role_cases hm
        · exact ih hms cm' h

/-- C10: `convertRequest` collapses roles — every converted message's role is
`"assistant"` exactly when the inbound `message.role === "assistant"` and
`"user"` otherwise (so `"system"`, `"tool"`, … inside `messages` go upstream
as `"user"`), and a `"system"`-role message arises only from the top-level
`payload.system` field, prepended when truthy. -/
theorem anthropic_role_collapse (payload : Json) (req : OpenAIReq)
    (hok : AnthropicAdapter.convertRequest payload = .ok req) :
    ∃ ml conv,
      anthMsgsSrc payload = .ok ml ∧
      anthConvMsgs ml = .ok conv ∧
      req.messages =
        (if optTruthy (payload.getF "system") then
          [{ role := "system", content := some ((payload.getF "system").getD .null),
             tool_calls := none }] else []) ++ conv ∧
      List.Forall₂ (fun (m : Json) (cm : ConvMsg) =>
        cm.role = if jsEqStr (m.getF "role") "assistant" then "assistant" else "user")
        ml conv ∧
      ∀ cm ∈ conv, cm.role = "assistant" ∨ cm.role = "user" := by
  unfold AnthropicAdapter.convertRequest at hok
  cases ht : anthToolsRes payload with
  | error e => rw [ht] at hok; cases hok
  | ok tls =>
    rw [ht] at hok
    dsimp only at hok
    cases hm : anthMsgsSrc payload with
    | error e => rw [hm] at hok; cases hok
    | ok ml =>
      rw [hm] at hok
      dsimp only at hok
      cases hc : anthConvMsgs ml with
      | error e => rw [hc] at hok; cases hok
      | ok conv =>
        rw [hc] at hok
        simp only [Except.ok.injEq] at hok
        subst hok
        exact ⟨ml, conv, rfl, hc, rfl, anthConvMsgs_roles hc, anthConvMsgs_no_system hc⟩

/-- A request carrying a `system` field and `tool`- and `assistant`-role
messages, for the witness below. -/
def c10Payload : Json := .obj [
  ("system", .str "sys"),
  ("messages", .arr [
    .obj [("role", .str "tool"), ("content", .str "x")],
    .obj [("role", .str "assistant"), ("content", .str "y")]])]

def c10Req : OpenAIReq :=
  { model := .str "gpt-4o-2024-11-20",
    messages := [
      { role := "system", content := some (.str "sys"), tool_calls := none },
      { role := "user", content := some (.str "x"), tool_calls := none },
      { role := "assistant", content := some (.str "y"), tool_calls := none }],
    stream := .bool false,
    max_tokens := none, temperature := none, top_p := none, top_k := none,
    tools := none }

theorem anthropic_role_collapse_witness :
    AnthropicAdapter.convertRequest c10Payload = .ok c10Req ∧
    ∃ ml conv,
      anthMsgsSrc c10Payload = .ok ml ∧
      anthConvMsgs ml = .ok conv ∧
      c10Req.messages =
        (if optTruthy (c10Payload.getF "system") then
          [{ role := "system", content := some ((c10Payload.getF "system").getD .null),
             tool_calls := none }] else []) ++ conv ∧
      List.Forall₂ (fun (m : Json) (cm : ConvMsg) =>
        cm.role = if jsEqStr (m.getF "role") "assistant" then "assistant" else "user")
        ml conv ∧
      ∀ cm ∈ conv, cm.role = "assistant" ∨ cm.role = "user" :=
  ⟨rfl, anthropic_role_collapse c10Payload c10Req rfl⟩

/-! ## OpenAI Responses adapter (claims C7 and C9)

Minted identifiers (`resp_…`, `msg_…`, `fc_…`, `reasoning_…`) are
determinised by a `Nat` counter; where an identifier lands inside a `Json`
value it is rendered via `mintedIdStr`. -/

/-- `v || 0` keeping the truthy value as-is. -/
def numOrJ (o : Option Json) : Json :=
  if optTruthy o then o.getD .null else .num 0

/-- JS `+` on usage numbers (string operands concatenate). -/
def jsAdd (a b : Json) : Json :=
  match a, b with
  | .num x, .num y => .num (x + y)
  | _, _ => .str (jsStr a ++ jsStr b)

/-- `buildUsage(usage = {})` — the default applies only for `undefined`;
`null` throws on field access. -/
def buildUsage (u? : Option Json) : Except JsErr Json :=
  match u? with
  | some u =>
    if u.isNull then .error .typeError
    else .ok (.obj ([
      ("input_tokens", numOrJ (u.getF "prompt_tokens")),
      ("output_tokens", numOrJ (u.getF "completion_tokens")),
      ("total_tokens",
        if optTruthy (u.getF "total_tokens") then (u.getF "total_tokens").getD .null
        else jsAdd (numOrJ (u.getF "prompt_tokens")) (numOrJ (u.getF "completion_tokens"))),
      ("input_tokens_details",
        if optTruthy (u.getF "prompt_tokens_details") then
          .obj [
            ("cached_tokens",
              numOrJ ((u.getF "prompt_tokens_details").bind (fun d => d.getF "cached_tokens"))),
            ("text_tokens",
              numOrJ ((u.getF "prompt_tokens_details").bind (fun d => d.getF "text_tokens"))),
            ("audio_tokens",
              numOrJ ((u.getF "prompt_tokens_details").bind (fun d => d.getF "audio_tokens")))]
        else .obj [("cached_tokens", .num 0)]),
      ("output_tokens_details",
        if optTruthy (u.getF "completion_tokens_details") then
          .obj [
            ("reasoning_tokens",
              numOrJ ((u.getF "completion_tokens_details").bind
                (fun d => d.getF "reasoning_tokens"))),
            ("text_tokens",
              numOrJ ((u.getF "completion_tokens_details").bind (fun d => d.getF "text_tokens")))]
        else .obj [("reasoning_tokens", .num 0)])] ++
      (match u.getF "cost" with
       | some c => [("cost", c)]
       | none => [])))
  | none => .ok (.obj [
      ("input_tokens", .num 0), ("output_tokens", .num 0), ("total_tokens", .num 0),
      ("input_tokens_details", .obj [("cached_tokens", .num 0)]),
      ("output_tokens_details", .obj [("reasoning_tokens", .num 0)])])

def mapFinishReasonToStatus (o : Option Json) : String :=
  if !optTruthy o then "completed"
  else if jsEqStr o "stop" || jsEqStr o "tool_calls" || jsEqStr o "function_call" then
    "completed"
  else if jsEqStr o "length" || jsEqStr o "content_filter" then "incomplete"
  else "completed"

/-- `transformAnnotations` (a `null` element throws on `.type`). -/
def transformAnns (o : Option Json) : Except JsErr Json :=
  match o with
  | some (.arr l) =>
    let rec go : List Json → Except JsErr (List Json)
      | [] => .ok []
      | a :: rest =>
        if a.isNull then .error .typeError
        else
          let item : List Json :=
            if jsEqStr (a.getF "type") "url_citation" && optTruthy (a.getF "url_citation") then
              let c := (a.getF "url_citation").getD .null
              [.obj [("type", .str "url_citation"),
                ("start_index", (c.getF "start_index").getD .null),
                ("end_index", (c.getF "end_index").getD .null),
                ("url", (c.getF "url").getD .null),
                ("title", (c.getF "title").getD .null)]]
            else []
          match go rest with
          | .error e => .error e
          | .ok r => .ok (item ++ r)
    match go l with
    | .error e => .error e
    | .ok r => .ok (.arr r)
  | _ => .ok (.arr [])

/-- `_buildIncompleteDetails`. -/
def respIncompleteDetails (fr? : Option Json) (existing : Option Json) : Json :=
  if optTruthy existing then existing.getD .null
  else if jsEqStr fr? "length" then .obj [("reason", .str "max_tokens")]
  else if jsEqStr fr? "content_filter" then .obj [("reason", .str "content_filter")]
  else .null

/-- An item of the unary `output[]` array.  A `functionCall` item also
carries the constant `status: "completed"`. -/
inductive RespItem where
  | reasoning (id : Nat) (status : String) (text : Json)
  | message (id : Nat) (status : String) (text : String) (anns : Json)
  | functionCall (id : ToolId) (name : Json) (args : Json) (callId : ToolId)

def RespItem.isReasoning : RespItem → Bool
  | .reasoning .. => true
  | _ => false

def RespItem.isFnCall : RespItem → Bool
  | .functionCall .. => true
  | _ => false

/-- `for (const choice of response.choices || [])`: `[]` for a falsy value,
elements of an array, characters of a string, `TypeError` otherwise. -/
def respChoicesIter (response : Json) : Except JsErr (List Json) :=
  let c := (response.getF "choices").getD .null
  if !c.truthy then .ok []
  else match c with
    | .arr l => .ok l
    | .str s => .ok (s.data.map (fun ch => .str (String.mk [ch])))
    | _ => .error .typeError

/-- One `toolCall` of the unary loop — when `toolCall.id` is falsy, `id` and
`call_id` are minted by two separate `createFunctionCallId()` calls. -/
def respToolItems (ctr : Nat) : List Json → Except JsErr (List RespItem × Nat)
  | [] => .ok ([], ctr)
  | tc :: tcs =>
    if tc.isNull then .error .typeError
    else
      let idp : ToolId × Nat :=
        if optTruthy (tc.getF "id") then (.given ((tc.getF "id").getD .null), ctr)
        else (.minted ctr, ctr + 1)
      let cidp : ToolId × Nat :=
        if optTruthy (tc.getF "id") then (.given ((tc.getF "id").getD .null), idp.2)
        else (.minted idp.2, idp.2 + 1)
      let fn? := tc.getF "function"
      let name : Json :=
        if optTruthy (fn?.bind (fun f => f.getF "name")) then
          (fn?.bind (fun f => f.getF "name")).getD .null
        else .str "unknown"
      let args : Json :=
        if optTruthy (fn?.bind (fun f => f.getF "arguments")) then
          (fn?.bind (fun f => f.getF "arguments")).getD .null
        else .str "\x7b\x7d"
      match respToolItems cidp.2 tcs with
      | .error e => .error e
      | .ok r => .ok (.functionCall idp.1 name args cidp.1 :: r.1, r.2)

/-- One `choice` of the unary loop: its reasoning items, function_call
items, and `outputTextParts` contributions. -/
def respChoiceStep (status : String) (ctr : Nat) (choice : Json) :
    Except JsErr (List RespItem × List RespItem × List Json × Nat) :=
  if choice.isNull then .error .typeError
  else
    let msg : Json :=
      if optTruthy (choice.getF "message") then (choice.getF "message").getD .null
      else .obj []
    let rpair : List RespItem × Nat :=
      if optTruthy (msg.getF "reasoning_content") then
        ([.reasoning ctr status ((msg.getF "reasoning_content").getD .null)], ctr + 1)
      else ([], ctr)
    let parts : List Json :=
      if optTruthy (msg.getF "content") then [(msg.getF "content").getD .null] else []
    match (msg.getF "tool_calls").getD .null with
    | .arr l =>
      if l.length > 0 then
        match respToolItems rpair.2 l with
        | .error e => .error e
        | .ok r => .ok (rpair.1, r.1, parts, r.2)
      else .ok (rpair.1, [], parts, rpair.2)
    | .str s =>
      if s.length > 0 then
        match respToolItems rpair.2 (s.data.map (fun c => .str (String.mk [c]))) with
        | .error e => .error e
        | .ok r => .ok (rpair.1, r.1, parts, r.2)
      else .ok (rpair.1, [], parts, rpair.2)
    | _ => .ok (rpair.1, [], parts, rpair.2)

def respChoicesRun (status : String) (ctr : Nat) : List Json →
    Except JsErr (List RespItem × List RespItem × List Json × Nat)
  | [] => .ok ([], [], [], ctr)
  | c :: cs =>
    match respChoiceStep status ctr c with
    | .error e => .error e
    | .ok r =>
      match respChoicesRun status r.2.2.2 cs with
      | .error e => .error e
      | .ok rr => .ok (r.1 ++ rr.1, r.2.1 ++ rr.2.1, r.2.2.1 ++ rr.2.2.1, rr.2.2.2)

/-- The unary Responses API result object. -/
structure RespParsed where
  id : Nat
  created_at : TimeStr
  status : String
  model : Option Json
  output : List RespItem
  output_text : String
  incomplete_details : Json
  usage : Json
  parallel_tool_calls : Json

namespace OpenAIResponseAdapter

/-- The unary `parseResponse`: groups reasoning items, then the single
message item when `outputText` is truthy, then function_call items. -/
def parseResponse (response : Json) (ctr : Nat) : Except JsErr RespParsed :=
  let fc? := ((response.getF "choices").getD .null).idx0
  let finishReason : Option Json := fc?.bind (fun c => c.getF "finish_reason")
  let status := mapFinishReasonToStatus finishReason
  match respChoicesIter response with
  | .error e => .error e
  | .ok cl =>
    match respChoicesRun status (ctr + 1) cl with
    | .error e => .error e
    | .ok r =>
      let outputText := String.join (r.2.2.1.map jsStr)
      let msgRes : Except JsErr (List RespItem × Nat) :=
        if outputText ≠ "" then
          match transformAnns ((fc?.bind (fun c => c.getF "message")).bind
              (fun m => m.getF "annotations")) with
          | .error e => .error e
          | .ok anns => .ok ([.message r.2.2.2 status outputText anns], r.2.2.2 + 1)
        else .ok ([], r.2.2.2)
      match msgRes with
      | .error e => .error e
      | .ok ms =>
        match buildUsage (response.getF "usage") with
        | .error e => .error e
        | .ok us =>
          .ok { id := ctr, created_at := createTimeOf response, status := status,
                model := response.getF "model",
                output := r.1 ++ ms.1 ++ r.2.1,
                output_text := outputText,
                incomplete_details :=
                  respIncompleteDetails finishReason (response.getF "incomplete_details"),
                usage := us,
                parallel_tool_calls :=
                  match response.getF "parallel_tool_calls" with
                  | some v => v
                  | none => .bool true }

end OpenAIResponseAdapter

/-- One accumulated streaming tool call (`state.toolCalls[key]`), as read by
the `[DONE]` branch. -/
structure RespTc where
  outputIndex : Json
  itemId : Json
  args : Json

/-- The Responses streaming state fields consumed by the `[DONE]` branch
(`Object.values(state.toolCalls)` is kept in insertion order). -/
structure RespSt where
  responseId : Json
  createdAt : Json
  model : Json
  outputText : String
  itemId : Json
  usage : Json
  toolCalls : List RespTc
  contentPartAdded : Bool
  contentPartDone : Bool
  outputItemAdded : Bool
  outputItemDone : Bool
  currentAnns : Json

/-- A minted identifier rendered into a `Json` value. -/
def mintedIdStr (pre : String) (n : Nat) : Json := .str (pre ++ "_" ++ toString n)

def respTcDoneEvents (rid : Json) : List RespTc → List Json
  | [] => []
  | tc :: tcs =>
    .obj [("type", .str "response.function_call_arguments.done"),
      ("response_id", rid), ("output_index", tc.outputIndex),
      ("item_id", tc.itemId), ("arguments", tc.args)] :: respTcDoneEvents rid tcs

/-- The `response` envelope of the terminal `response.completed` event, as
built by the source object literal (note: no `output` field). -/
def respCompletedEnv (st : RespSt) (us : Json) : Json :=
  .obj [("id", st.responseId), ("object", .str "response"),
        ("created_at", st.createdAt), ("status", .str "completed"),
        ("model", st.model), ("output_text", .str st.outputText),
        ("usage", us)]

def respCompletedEvent (st : RespSt) (us : Json) : Json :=
  .obj [("type", .str "response.completed"), ("response", respCompletedEnv st us)]

/-- The `[DONE]` branch of the Responses `parseStreamChunk`: closes the open
content part and output item, emits `response.output_text.done` when text
was accumulated, one `response.function_call_arguments.done` per tool call,
then the terminal `response.completed` whose `response` envelope is built
with the fields `id, object, created_at, status, model, output_text, usage`
only.  The branch mutates only the `contentPartDone`/`outputItemDone` flags,
which no later read in the branch consults, so every field is rendered from
the entry state. -/
def respDoneStep (st : RespSt) (ctr : Nat) : Except JsErr (List Json × RespSt × Nat) :=
  let c1 : Bool := st.contentPartAdded && !st.contentPartDone
  let p1 : List Json × Nat :=
    if c1 then
      let idp : Json × Nat :=
        if st.itemId.truthy then (st.itemId, ctr) else (mintedIdStr "msg" ctr, ctr + 1)
      ([.obj [("type", .str "response.content_part.done"),
        ("response_id", st.responseId), ("item_id", idp.1),
        ("output_index", .num 0), ("content_index", .num 0),
        ("part", .obj [("type", .str "output_text"), ("text", .str st.outputText),
          ("annotations", st.currentAnns)])]], idp.2)
    else ([], ctr)
  let c2 : Bool := st.outputItemAdded && !st.outputItemDone
  let p2 : List Json × Nat :=
    if c2 then
      let idp : Json × Nat :=
        if st.itemId.truthy then (st.itemId, p1.2)
        else (mintedIdStr "msg" p1.2, p1.2 + 1)
      ([.obj [("type", .str "response.output_item.done"),
        ("response_id", st.responseId), ("output_index", .num 0),
        ("item", .obj [("id", idp.1), ("type", .str "message"),
          ("status", .str "completed"), ("role", .str "assistant"),
          ("content", .arr [.obj [("type", .str "output_text"),
            ("text", .str st.outputText), ("annotations", st.currentAnns)]])])]], idp.2)
    else ([], p1.2)
  let p3 : List Json :=
    if st.outputText ≠ "" then
      [.obj [("type", .str "response.output_text.done"),
        ("response_id", st.responseId), ("output_index", .num 0),
        ("content_index", .num 0), ("text", .str st.outputText)]]
    else []
  let p4 := respTcDoneEvents st.responseId st.toolCalls
  match buildUsage (some st.usage) with
  | .error e => .error e
  | .ok us =>
    .ok (p1.1 ++ p2.1 ++ p3 ++ p4 ++ [respCompletedEvent st us],
      { st with contentPartDone := st.contentPartDone || c1,
                outputItemDone := st.outputItemDone || c2 },
      p2.2)

theorem respToolItems_all {ctr : Nat} : ∀ {l : List Json} {r : List RespItem × Nat},
    respToolItems ctr l = .ok r → ∀ x ∈ r.1, x.isFnCall = true := by
  intro l
  induction l generalizing ctr with
  | nil =>
    intro r hok
    simp only [respToolItems, Except.ok.injEq] at hok
    subst hok
    intro x hx
    cases hx
  | cons tc tcs ih =>
    intro r hok
    rw [respToolItems] at hok
    by_cases hn : tc.isNull = true
    · rw [if_pos hn] at hok; cases hok
    · rw [if_neg hn] at hok
      dsimp only at hok
      generalize (if optTruthy (tc.getF "id") = true then
          (ToolId.given ((tc.getF "id").getD Json.null), ctr)
        else (ToolId.minted ctr, ctr + 1)) = p at hok
      generalize (if optTruthy (tc.getF "id") = true then
          (ToolId.given ((tc.getF "id").getD Json.null), p.2)
        else (ToolId.minted p.2, p.2 + 1)) = q at hok
      cases hr : respToolItems q.2 tcs with
      | error e => rw [hr] at hok; cases hok
      | ok r2 =>
        rw [hr] at hok
        dsimp only at hok
        simp only [Except.ok.injEq] at hok
        subst hok
        intro x hx
        rcases List.mem_cons.mp hx with h | h
        · subst h; rfl
        · exact ih hr x h

theorem respChoiceStep_all {status : String} {ctr : Nat} {c : Json}
    {r : List RespItem × List RespItem × List Json × Nat}
    (hok : respChoiceStep status ctr c = .ok r) :
    (∀ x ∈ r.1, x.isReasoning = true) ∧ (∀ x ∈ r.2.1, x.isFnCall = true) := by
  unfold respChoiceStep at hok
  by_cases hn : c.isNull = true
  · rw [if_pos hn] at hok; cases hok
  · rw [if_neg hn] at hok
    dsimp only at hok
    revert hok
    generalize (if optTruthy (c.getF "message") = true then
      (c.getF "message").getD Json.null else Json.obj []) = msg
    intro hok
    revert hok
    generalize hrp : (if optTruthy (msg.getF "reasoning_content") = true then
        ([RespItem.reasoning ctr status ((msg.getF "reasoning_content").getD Json.null)],
          ctr + 1)
      else ([], ctr)) = rp
    intro hok
    have hrA : ∀ x ∈ rp.1, x.isReasoning = true := by
      rw [← hrp]
      intro x hx
      by_cases h : optTruthy (msg.getF "reasoning_content") = true
      · rw [if_pos h] at hx
        rcases List.mem_singleton.mp hx with h'
        subst h'
        rfl
      · rw [if_neg h] at hx
        cases hx
    cases htc : (msg.getF "tool_calls").getD .null with
    | arr l =>
      rw [htc] at hok
      dsimp only at hok
      by_cases hl : l.length > 0
      · rw [if_pos hl] at hok
        cases hti : respToolItems rp.2 l with
        | error e => rw [hti] at hok; cases hok
        | ok r2 =>
          rw [hti] at hok
          dsimp only at hok
          simp only [Except.ok.injEq] at hok
          subst hok
          exact ⟨hrA, fun x hx => respToolItems_all hti x hx⟩
      · rw [if_neg hl] at hok
        simp only [Except.ok.injEq] at hok
        subst hok
        exact ⟨hrA, fun x hx => absurd hx (List.not_mem_nil x)⟩
    | str s =>
      rw [htc] at hok
      dsimp only at hok
      by_cases hl : s.length > 0
      · rw [if_pos hl] at hok
        cases hti : respToolItems rp.2 (s.data.map (fun ch => Json.str (String.mk [ch]))) with
        | error e => rw [hti] at hok; cases hok
        | ok r2 =>
          rw [hti] at hok
          dsimp only at hok
          simp only [Except.ok.injEq] at hok
          subst hok
          exact ⟨hrA, fun x hx => respToolItems_all hti x hx⟩
      · rw [if_neg hl] at hok
        simp only [Except.ok.injEq] at hok
        subst hok
        exact ⟨hrA, fun x hx => absurd hx (List.not_mem_nil x)⟩
    | null =>
      rw [htc] at hok
      dsimp only at hok
      simp only [Except.ok.injEq] at hok
      subst hok
      exact ⟨hrA, fun x hx => absurd hx (List.not_mem_nil x)⟩
    | bool b =>
      rw [htc] at hok
      dsimp only at hok
      simp only [Except.ok.injEq] at hok
      subst hok
      exact ⟨hrA, fun x hx => absurd hx (List.not_mem_nil x)⟩
    | num n =>
      rw [htc] at hok
      dsimp only at hok
      simp only [Except.ok.injEq] at hok
      subst hok
      exact ⟨hrA, fun x hx => absurd hx (List.not_mem_nil x)⟩
    | obj o =>
      rw [htc] at hok
      dsimp only at hok
      simp only [Except.ok.injEq] at hok
      subst hok
      exact ⟨hrA, fun x hx => absurd hx (List.not_mem_nil x)⟩

theorem respChoicesRun_all {status : String} : ∀ {cl : List Json} {ctr : Nat}
    {r : List RespItem × List RespItem × List Json × Nat},
    respChoicesRun status ctr cl = .ok r →
    (∀ x ∈ r.1, x.isReasoning = true) ∧ (∀ x ∈ r.2.1, x.isFnCall = true) := by
  intro cl
  induction cl with
  | nil =>
    intro ctr r hok
    simp only [respChoicesRun, Except.ok.injEq] at hok
    subst hok
    exact ⟨fun x hx => absurd hx (List.not_mem_nil x),
           fun x hx => absurd hx (List.not_mem_nil x)⟩
  | cons c cs ih =>
    intro ctr r hok
    rw [respChoicesRun] at hok
    cases hs : respChoiceStep status ctr c with
    | error e => rw [hs] at hok; cases hok
    | ok r1 =>
      rw [hs] at hok
      dsimp only at hok
      cases hrec : respChoicesRun status r1.2.2.2 cs with
      | error e => rw [hrec] at hok; cases hok
      | ok r2 =>
        rw [hrec] at hok
        dsimp only at hok
        simp only [Except.ok.injEq] at hok
        subst hok
        obtain ⟨h1, h2⟩ := respChoiceStep_all hs
        obtain ⟨h1', h2'⟩ := ih hrec
        refine ⟨?_, ?_⟩
        · intro x hx
          rcases List.mem_append.mp hx with h | h
          · exact h1 x h
          · exact h1' x h
        · intro x hx
          rcases List.mem_append.mp hx with h | h
          · exact h2 x h
          · exact h2' x h

/-- C7 (amended): in the unary `parseResponse` the `output[]` array is
ordered reasoning items first, then at most one message item — present
exactly when `output_text` is nonempty — then function_call items; the
streaming terminal `response.completed` event, by contrast, carries no
`output` field at all in its `response` envelope (only `output_text`). -/
theorem responses_output_ordering :
    (∀ (response : Json) (ctr : Nat) (r : RespParsed),
      OpenAIResponseAdapter.parseResponse response ctr = .ok r →
      ∃ rs ms ts, r.output = rs ++ ms ++ ts ∧
        (∀ x ∈ rs, x.isReasoning = true) ∧
        (∀ x ∈ ts, x.isFnCall = true) ∧
        ((r.output_text = "" ∧ ms = []) ∨
          (r.output_text ≠ "" ∧ ∃ i anns, ms = [.message i r.status r.output_text anns]))) ∧
    (∀ (st : RespSt) (ctr : Nat) (evs : List Json) (st' : RespSt) (ctr' : Nat),
      respDoneStep st ctr = .ok (evs, st', ctr') →
      ∃ us, buildUsage (some st.usage) = .ok us ∧
        evs.getLast? = some (respCompletedEvent st us) ∧
        (respCompletedEnv st us).getF "output" = none ∧
        (respCompletedEnv st us).getF "output_text" = some (.str st.outputText)) := by
  constructor
  · intro response ctr r hok
    unfold OpenAIResponseAdapter.parseResponse at hok
    dsimp only at hok
    cases hci : respChoicesIter response with
    | error e => rw [hci] at hok; cases hok
    | ok cl =>
      rw [hci] at hok
      dsimp only at hok
      cases hcr : respChoicesRun (mapFinishReasonToStatus
          ((((response.getF "choices").getD Json.null).idx0).bind
            (fun c => c.getF "finish_reason"))) (ctr + 1) cl with
      | error e => rw [hcr] at hok; cases hok
      | ok rr =>
        rw [hcr] at hok
        dsimp only at hok
        obtain ⟨hrs, hts⟩ := respChoicesRun_all hcr
        by_cases hot : String.join (rr.2.2.1.map jsStr) ≠ ""
        · rw [if_pos hot] at hok
          cases hta : transformAnns (((((response.getF "choices").getD Json.null).idx0).bind
              (fun c => c.getF "message")).bind (fun m => m.getF "annotations")) with
          | error e => rw [hta] at hok; cases hok
          | ok anns =>
            rw [hta] at hok
            dsimp only at hok
            cases hbu : buildUsage (response.getF "usage") with
            | error e => rw [hbu] at hok; cases hok
            | ok us =>
              rw [hbu] at hok
              dsimp only at hok
              simp only [Except.ok.injEq] at hok
              subst hok
              refine ⟨rr.1, _, rr.2.1, rfl, hrs, hts, Or.inr ⟨hot, rr.2.2.2, anns, rfl⟩⟩
        · rw [if_neg hot] at hok
          dsimp only at hok
          cases hbu : buildUsage (response.getF "usage") with
          | error e => rw [hbu] at hok; cases hok
          | ok us =>
            rw [hbu] at hok
            dsimp only at hok
            simp only [Except.ok.injEq] at hok
            subst hok
            push_neg at hot
            refine ⟨rr.1, [], rr.2.1, rfl, hrs, hts, Or.inl ⟨hot, rfl⟩⟩
  · intro st ctr evs st' ctr' hok
    unfold respDoneStep at hok
    dsimp only at hok
    cases hbu : buildUsage (some st.usage) with
    | error e => rw [hbu] at hok; cases hok
    | ok us =>
      rw [hbu] at hok
      dsimp only at hok
      simp only [Except.ok.injEq, Prod.mk.injEq] at hok
      obtain ⟨he, _, _⟩ := hok
      subst he
      refine ⟨us, rfl, ?_, rfl, rfl⟩
      simp

/-- A streaming state as left by a content-bearing stream just before
`[DONE]`: text was accumulated and the content part and output item are
open. -/
def c7St : RespSt :=
  { responseId := .str "resp_1", createdAt := .num 1, model := .str "m",
    outputText := "Hi", itemId := .str "msg_1",
    usage := .obj [("prompt_tokens", .num 3), ("completion_tokens", .num 1)],
    toolCalls := [], contentPartAdded := true, contentPartDone := false,
    outputItemAdded := true, outputItemDone := false, currentAnns := .arr [] }

/-- C7 (counterexample): at `[DONE]` the terminal `response.completed`
event's `response` envelope has no `output` field, although the stream did
produce textual output (`output_text = "Hi"`), so no ordering can hold
there. -/
theorem responses_stream_completed_lacks_output :
    (match respDoneStep c7St 0 with
     | .ok r => (r.1.getLast?.bind (fun ev => ev.getF "response")).map
         (fun env => (env.getF "output", env.getF "output_text"))
     | .error _ => none) = some (none, some (.str "Hi")) := rfl

def c7Resp : Json := .obj [
  ("model", .str "m"),
  ("choices", .arr [.obj [
    ("finish_reason", .str "tool_calls"),
    ("message", .obj [
      ("reasoning_content", .str "think"),
      ("content", .str "Hi"),
      ("tool_calls", .arr [.obj [("id", .str "c1"),
        ("function", .obj [("name", .str "f"), ("arguments", .str "\x7b\x7d")])]])])]]),
  ("usage", .obj [("prompt_tokens", .num 3), ("completion_tokens", .num 1)])]

def c7Usage : Json := .obj [
  ("input_tokens", .num 3), ("output_tokens", .num 1), ("total_tokens", .num 4),
  ("input_tokens_details", .obj [("cached_tokens", .num 0)]),
  ("output_tokens_details", .obj [("reasoning_tokens", .num 0)])]

def c7Parsed : RespParsed :=
  { id := 0, created_at := .now, status := "completed", model := some (.str "m"),
    output := [.reasoning 1 "completed" (.str "think"),
               .message 2 "completed" "Hi" (.arr []),
               .functionCall (.given (.str "c1")) (.str "f") (.str "\x7b\x7d")
                 (.given (.str "c1"))],
    output_text := "Hi", incomplete_details := .null, usage := c7Usage,
    parallel_tool_calls := .bool true }

/-- An idle streaming state (nothing accumulated), for the witness below. -/
def c7WitSt : RespSt :=
  { responseId := .str "resp_2", createdAt := .num 1, model := .str "m",
    outputText := "", itemId := .null, usage := .obj [], toolCalls := [],
    contentPartAdded := false, contentPartDone := false,
    outputItemAdded := false, outputItemDone := false, currentAnns := .arr [] }

def c7Usage0 : Json := .obj [
  ("input_tokens", .num 0), ("output_tokens", .num 0), ("total_tokens", .num 0),
  ("input_tokens_details", .obj [("cached_tokens", .num 0)]),
  ("output_tokens_details", .obj [("reasoning_tokens", .num 0)])]

theorem responses_output_ordering_witness :
    (∃ rs ms ts, c7Parsed.output = rs ++ ms ++ ts ∧
      (∀ x ∈ rs, x.isReasoning = true) ∧
      (∀ x ∈ ts, x.isFnCall = true) ∧
      ((c7Parsed.output_text = "" ∧ ms = []) ∨
        (c7Parsed.output_text ≠ "" ∧
          ∃ i anns, ms = [.message i c7Parsed.status c7Parsed.output_text anns]))) ∧
    (∃ us, buildUsage (some c7WitSt.usage) = .ok us ∧
      [respCompletedEvent c7WitSt c7Usage0].getLast? =
        some (respCompletedEvent c7WitSt us) ∧
      (respCompletedEnv c7WitSt us).getF "output" = none ∧
      (respCompletedEnv c7WitSt us).getF "output_text" =
        some (.str c7WitSt.outputText)) :=
  ⟨(responses_output_ordering).1 c7Resp 0 c7Parsed rfl,
   (responses_output_ordering).2 c7WitSt 0 [respCompletedEvent c7WitSt c7Usage0]
     c7WitSt 0 rfl⟩

/-! ## Responses `parseTools` (claim C9) -/

/-- JS property assignment `o[k] = v` on an assoc-list object: update in
place when the key exists, append otherwise. -/
def assocSetJ (l : List (String × Json)) (k : String) (v : Json) :
    List (String × Json) :=
  if l.any (fun p => p.1 = k) then l.map (fun p => if p.1 = k then (k, v) else p)
  else l ++ [(k, v)]

/-- `typeof tool === "object" && tool` (arrays are objects; `null` is
falsy). -/
def jsIsObjLike (t : Json) : Bool :=
  match t with
  | .obj _ => true
  | .arr _ => true
  | _ => false

/-- `typeof parameters.type === "object"` on a present value. -/
def respTypeIsObj (o : Option Json) : Bool :=
  match o with
  | some (.obj _) => true
  | some (.arr _) => true
  | _ => false

/-- Nested path: `if (!parameters.type || typeof parameters.type !==
"object") parameters.type = "object"` — a provided non-object `type` (for
instance the string `"array"`) is overwritten. -/
def respNormalizeParams (fields : List (String × Json)) : List (String × Json) :=
  if respTypeIsObj (fields.lookup "type") then fields
  else assocSetJ fields "type" (.str "object")

/-- Flat path: `if (!parameters.type) parameters.type = "object"` — any
truthy `type` is kept. -/
def respNormalizeParamsFlat (fields : List (String × Json)) : List (String × Json) :=
  if optTruthy (fields.lookup "type") then fields
  else assocSetJ fields "type" (.str "object")

/-- The four extension properties copied onto a nested-path tool entry when
truthy. -/
def respToolExts (t : Json) : List (String × Json) :=
  (if optTruthy (t.getF "cache_control") then
    [("cache_control", (t.getF "cache_control").getD .null)] else []) ++
  (if optTruthy (t.getF "defer_loading") then
    [("defer_loading", (t.getF "defer_loading").getD .null)] else []) ++
  (if optTruthy (t.getF "allowed_callers") then
    [("allowed_callers", (t.getF "allowed_callers").getD .null)] else []) ++
  (if optTruthy (t.getF "input_examples") then
    [("input_examples", (t.getF "input_examples").getD .null)] else [])

/-- The `processedTool` of the nested path. -/
def respNestedEntry (t fn params : Json) : Json :=
  .obj ([("type", .str "function"),
    ("function", .obj [("name", (fn.getF "name").getD .null),
      ("description", (fn.getF "description").getD .null),
      ("parameters", params),
      ("strict", if optTruthy (fn.getF "strict") then (fn.getF "strict").getD .null
                 else .bool false)])] ++ respToolExts t)

/-- The flat-path tool entry: no `strict`, no extension properties. -/
def respFlatEntry (t : Json) (params : Json) : Json :=
  .obj [("type", .str "function"),
    ("function", .obj [("name", (t.getF "name").getD .null),
      ("description", (t.getF "description").getD .null),
      ("parameters", params)])]

/-- One tool of the `parseTools` loop.  Array-valued `parameters` receive a
property invisible to JSON and are passed through; in strict mode assigning
`.type` to a primitive `parameters` value throws. -/
def parseToolsStep (acc : List Json × Json) (t : Json) :
    Except JsErr (List Json × Json) :=
  if !(jsIsObjLike t) then .ok acc
  else if jsEqStr (t.getF "type") "mcp" then .ok (acc.1 ++ [t], acc.2)
  else if jsEqStr (t.getF "type") "web_search_preview" ||
      jsEqStr (t.getF "type") "web_search" then
    .ok (acc.1, .obj [
      ("search_context_size",
        if optTruthy (t.getF "search_context_size") then
          (t.getF "search_context_size").getD .null
        else .str "medium"),
      ("user_location",
        if optTruthy (t.getF "user_location") then (t.getF "user_location").getD .null
        else .null)])
  else if jsEqStr (t.getF "type") "function" && optTruthy (t.getF "function") then
    let fn := (t.getF "function").getD .null
    let params :=
      if optTruthy (fn.getF "parameters") then (fn.getF "parameters").getD .null
      else .obj []
    match params with
    | .obj fields => .ok (acc.1 ++ [respNestedEntry t fn (.obj (respNormalizeParams fields))],
        acc.2)
    | .arr l => .ok (acc.1 ++ [respNestedEntry t fn (.arr l)], acc.2)
    | _ => .error .typeError
  else if optTruthy (t.getF "name") || optTruthy (t.getF "parameters") then
    let params :=
      if optTruthy (t.getF "parameters") then (t.getF "parameters").getD .null
      else .obj []
    match params with
    | .obj fields => .ok (acc.1 ++ [respFlatEntry t (.obj (respNormalizeParamsFlat fields))],
        acc.2)
    | .arr l => .ok (acc.1 ++ [respFlatEntry t (.arr l)], acc.2)
    | _ => .error .typeError
  else .ok acc

def parseToolsRun (acc : List Json × Json) : List Json → Except JsErr (List Json × Json)
  | [] => .ok acc
  | t :: ts =>
    match parseToolsStep acc t with
    | .error e => .error e
    | .ok acc' => parseToolsRun acc' ts

structure ToolsResult where
  tools : Option (List Json)
  webSearchOptions : Json

/-- `parseTools`: `undefined` for a non-array argument, else the converted
tool list (dropped when empty) and the web-search options. -/
def parseTools (tools : Json) : Except JsErr (Option ToolsResult) :=
  match tools with
  | .arr l =>
    match parseToolsRun ([], .null) l with
    | .error e => .error e
    | .ok acc =>
      .ok (some { tools := if acc.1.length > 0 then some acc.1 else none,
                  webSearchOptions := acc.2 })
  | _ => .ok none

theorem lookup_none_of_not_any {k : String} : ∀ {l : List (String × Json)},
    l.any (fun p => p.1 = k) = false → l.lookup k = none := by
  intro l
  induction l with
  | nil => intro _; rfl
  | cons p l ih =>
    intro h
    rw [List.any_cons, Bool.or_eq_false_iff] at h
    have hne : ¬(p.1 = k) := of_decide_eq_false h.1
    have hbk : (k == p.1) = false := by
      rw [beq_eq_false_iff_ne]
      exact fun he => hne he.symm
    rw [List.lookup, hbk]
    exact ih h.2

theorem lookup_map_set {k : String} {v : Json} : ∀ {l : List (String × Json)},
    l.any (fun p => p.1 = k) = true →
    (l.map (fun p => if p.1 = k then (k, v) else p)).lookup k = some v := by
  intro l
  induction l with
  | nil => intro h; simp at h
  | cons p l ih =>
    intro h
    by_cases hp : p.1 = k
    · rw [List.map_cons, if_pos hp, List.lookup, beq_self_eq_true]
    · rw [List.map_cons, if_neg hp]
      have hbk : (k == p.1) = false := by
        rw [beq_eq_false_iff_ne]
        exact fun he => hp he.symm
      rw [List.lookup, hbk]
      apply ih
      rw [List.any_cons, Bool.or_eq_true] at h
      rcases h with h | h
      · exact absurd (of_decide_eq_true h) hp
      · exact h

theorem assocSetJ_lookup (k : String) (v : Json) : ∀ (l : List (String × Json)),
    (assocSetJ l k v).lookup k = some v := by
  intro l
  unfold assocSetJ
  by_cases h : l.any (fun p => p.1 = k) = true
  · rw [if_pos h]
    exact lookup_map_set h
  · rw [if_neg h]
    rw [Bool.not_eq_true] at h
    have h0 : l.lookup k = none := lookup_none_of_not_any h
    induction l with
    | nil =>
      rw [List.nil_append, List.lookup, beq_self_eq_true]
    | cons p l ih =>
      rw [List.cons_append, List.lookup]
      rw [List.lookup] at h0
      cases hbk : (k == p.1) with
      | true => rw [hbk] at h0; cases h0
      | false =>
        rw [hbk] at h0
        rw [List.any_cons, Bool.or_eq_false_iff] at h
        exact ih h.2 h0

/-- Tools exercising both `parseTools` paths: a nested function tool whose
`parameters.type` is the string `"array"`, and a flat tool carrying
`cache_control`. -/
def c9Tools : Json := .arr [
  .obj [("type", .str "function"),
        ("function", .obj [("name", .str "t1"),
          ("parameters", .obj [("type", .str "array"), ("items", .obj [])])])],
  .obj [("name", .str "t2"),
        ("parameters", .obj [("type", .str "object")]),
        ("cache_control", .obj [("type", .str "ephemeral")])]]

/-- C9 (counterexample): the nested tool's explicitly provided
`parameters.type` `"array"` is overwritten to `"object"` (not passed
through), and the flat tool's `cache_control` is dropped from the converted
entry. -/
theorem responses_parse_tools_divergences :
    (match parseTools c9Tools with
     | .ok (some r) => r.tools.map (fun l => l.map (fun e =>
         (((e.getF "function").bind (fun f => f.getF "parameters")).bind
            (fun p => p.getF "type"), e.getF "cache_control")))
     | _ => none) =
      some [(some (Json.str "object"), (none : Option Json)),
            (some (Json.str "object"), (none : Option Json))] ∧
    (c9Tools.idx0.bind (fun t =>
      ((t.getF "function").bind (fun f => f.getF "parameters")).bind
        (fun p => p.getF "type"))) = some (.str "array") ∧
    (match c9Tools with
     | .arr l => (l.get? 1).bind (fun t => t.getF "cache_control")
     | _ => none) = some (.obj [("type", .str "ephemeral")]) :=
  ⟨rfl, rfl, rfl⟩

/-- C9 (amended): on the nested path `parameters.type` is overwritten to
`"object"` unless the provided value is itself of object type (an object or
array); on the flat path it is overwritten exactly when absent or falsy;
the extension properties are preserved on nested-path entries and absent
from flat-path entries. -/
theorem responses_parse_tools_type_normalization :
    (∀ fields, respTypeIsObj (fields.lookup "type") = true →
        respNormalizeParams fields = fields) ∧
    (∀ fields, respTypeIsObj (fields.lookup "type") = false →
        (respNormalizeParams fields).lookup "type" = some (.str "object")) ∧
    (∀ fields, optTruthy (fields.lookup "type") = true →
        respNormalizeParamsFlat fields = fields) ∧
    (∀ fields, optTruthy (fields.lookup "type") = false →
        (respNormalizeParamsFlat fields).lookup "type" = some (.str "object")) ∧
    (∀ t fn params, optTruthy (t.getF "cache_control") = true →
        (respNestedEntry t fn params).getF "cache_control" = t.getF "cache_control") ∧
    (∀ t params, (respFlatEntry t params).getF "cache_control" = none) := by
  refine ⟨?_, ?_, ?_, ?_, ?_, ?_⟩
  · intro fields h
    rw [respNormalizeParams, if_pos h]
  · intro fields h
    rw [respNormalizeParams, if_neg (by rw [h]; exact Bool.false_ne_true)]
    exact assocSetJ_lookup _ _ _
  · intro fields h
    rw [respNormalizeParamsFlat, if_pos h]
  · intro fields h
    rw [respNormalizeParamsFlat, if_neg (by rw [h]; exact Bool.false_ne_true)]
    exact assocSetJ_lookup _ _ _
  · intro t fn params h
    rw [respNestedEntry]
    show (List.lookup "cache_control" _) = _
    rw [show respToolExts t =
        (if optTruthy (t.getF "cache_control") = true then
          [("cache_control", (t.getF "cache_control").getD .null)] else []) ++
        (if optTruthy (t.getF "defer_loading") = true then
          [("defer_loading", (t.getF "defer_loading").getD .null)] else []) ++
        (if optTruthy (t.getF "allowed_callers") = true then
          [("allowed_callers", (t.getF "allowed_callers").getD .null)] else []) ++
        (if optTruthy (t.getF "input_examples") = true then
          [("input_examples", (t.getF "input_examples").getD .null)] else [])
      from rfl, if_pos h]
    cases hcc : t.getF "cache_control" with
    | none => rw [hcc] at h; cases h
    | some c =>
      simp [List.lookup]
  · intro t params
    rfl

theorem responses_parse_tools_type_normalization_witness :
    (respTypeIsObj ([(("type" : String), Json.obj [])].lookup "type") = true ∧
      respNormalizeParams [(("type" : String), Json.obj [])] =
        [(("type" : String), Json.obj [])]) ∧
    (respTypeIsObj ([(("type" : String), Json.str "array")].lookup "type") = false ∧
      (respNormalizeParams [(("type" : String), Json.str "array")]).lookup "type" =
        some (.str "object")) ∧
    (optTruthy ([(("type" : String), Json.str "object")].lookup "type") = true ∧
      respNormalizeParamsFlat [(("type" : String), Json.str "object")] =
        [(("type" : String), Json.str "object")]) ∧
    (optTruthy (([] : List (String × Json)).lookup "type") = false ∧
      (respNormalizeParamsFlat []).lookup "type" = some (.str "object")) ∧
    (optTruthy ((Json.obj [("cache_control", .bool true)]).getF "cache_control") = true ∧
      (respNestedEntry (.obj [("cache_control", .bool true)]) .null .null).getF
        "cache_control" = (Json.obj [("cache_control", .bool true)]).getF "cache_control") ∧
    (respFlatEntry .null .null).getF "cache_control" = none :=
  ⟨⟨rfl, (responses_parse_tools_type_normalization).1 _ rfl⟩,
   ⟨rfl, (responses_parse_tools_type_normalization).2.1 _ rfl⟩,
   ⟨rfl, (responses_parse_tools_type_normalization).2.2.1 _ rfl⟩,
   ⟨rfl, (responses_parse_tools_type_normalization).2.2.2.1 _ rfl⟩,
   ⟨rfl, (responses_parse_tools_type_normalization).2.2.2.2.1 _ _ _ rfl⟩,
   (responses_parse_tools_type_normalization).2.2.2.2.2 _ _⟩
